import Mathlib

/-!
# Verification of the chemdemo molecular morphing core

Shallow embedding of the JavaScript source of `jacksonlevine/chemdemo`:
the atom-correspondence resolver, the rigid-alignment engine (Kabsch with a
randomized power-iteration eigensolver), the coordinate normalizer, the SDF
structure parser and sequence-building loop, and the transition/morph
controller of the viewer components.

JavaScript numbers are modelled by `JsNum`: a rational payload or NaN.
All rationals of interest (float64 values, parsed fixed-point decimals) are
exact rationals, and NaN propagation follows IEEE/JS rules.  Infinities do
not arise on the verified code paths: every division in the source either
has a nonzero divisor or a zero dividend (yielding NaN), and `Math.sqrt` /
`Math.hypot` are only evaluated at perfect squares or at NaN here.
-/

namespace Chemdemo

/-- A JavaScript number: a (finite) rational value or NaN.  Arithmetic
propagates NaN exactly as IEEE-754/JS does on the operations used by the
source (`+ - * /`, `Math.sqrt`, `Math.hypot`, `Math.min/max`, comparisons,
truthiness). -/
inductive JsNum where
  | num (q : ℚ)
  | nan
deriving DecidableEq, Repr

namespace JsNum

/-- JS `a + b`. -/
def add : JsNum → JsNum → JsNum
  | num a, num b => num (a + b)
  | _, _ => nan

/-- JS `a - b`. -/
def sub : JsNum → JsNum → JsNum
  | num a, num b => num (a - b)
  | _, _ => nan

/-- JS `a * b` (note `0 * NaN = NaN` in JS, as here). -/
def mul : JsNum → JsNum → JsNum
  | num a, num b => num (a * b)
  | _, _ => nan

/-- JS unary minus. -/
def neg : JsNum → JsNum
  | num a => num (-a)
  | nan => nan

/-- JS `a / b`.  Division by zero: in this code base every division by zero
has a zero dividend, so the JS result is `0/0 = NaN`; the (unreachable)
nonzero-dividend case would be an infinity, which we also map to NaN. -/
def div : JsNum → JsNum → JsNum
  | num a, num b => if b = 0 then nan else num (a / b)
  | _, _ => nan

/-- The exact natural square root, when it exists. -/
def natSqrtExact (m : ℕ) : Option ℕ :=
  (List.range (m + 1)).find? (fun k => k * k = m)

/-- Exact rational square root: `some r` with `r * r = q`, `0 ≤ r`, when `q`
is the square of a rational, else `none`.  (A rational in lowest terms is a
square iff its numerator and denominator are.) -/
def ratSqrt (q : ℚ) : Option ℚ :=
  if 0 ≤ q.num then
    match natSqrtExact q.num.natAbs, natSqrtExact q.den with
    | some n, some d => some ((n : ℚ) / (d : ℚ))
    | _, _ => none
  else none

/-- `Math.sqrt`, idealized: exact on perfect rational squares, NaN on
negative inputs (as in JS).  A nonnegative non-square input would be
irrational in exact arithmetic; no evaluation in this development reaches
one (only perfect squares and NaN occur), and it is mapped to NaN. -/
def sqrt : JsNum → JsNum
  | num q => match ratSqrt q with
    | some r => num r
    | none => nan
  | nan => nan

/-- JS `a < b` (false whenever an operand is NaN). -/
def lt : JsNum → JsNum → Bool
  | num a, num b => a < b
  | _, _ => false

/-- JS truthiness of a number: `0`, `-0` and `NaN` are falsy. -/
def truthy : JsNum → Bool
  | num q => q ≠ 0
  | nan => false

/-- JS `a || d` for numbers: `a` if truthy, else `d`. -/
def orDefault (a d : JsNum) : JsNum := if truthy a then a else d

/-- `Math.min(a, b)`: NaN if either argument is NaN. -/
def jmin : JsNum → JsNum → JsNum
  | num a, num b => num (min a b)
  | _, _ => nan

/-- `Math.max(a, b)`: NaN if either argument is NaN. -/
def jmax : JsNum → JsNum → JsNum
  | num a, num b => num (max a b)
  | _, _ => nan

end JsNum

/-- A 3-vector of JS numbers (a JS array `[x, y, z]`). -/
structure V3 where
  x : JsNum
  y : JsNum
  z : JsNum
deriving DecidableEq, Repr

/-- A 3×3 matrix of JS numbers, as its three rows. -/
structure M3 where
  r0 : V3
  r1 : V3
  r2 : V3
deriving DecidableEq, Repr

/-- Vector with all-rational entries. -/
def numV3 (a b c : ℚ) : V3 := ⟨.num a, .num b, .num c⟩

/-- The all-NaN vector. -/
def nanV3 : V3 := ⟨.nan, .nan, .nan⟩

/-- The all-NaN matrix. -/
def nanM3 : M3 := ⟨nanV3, nanV3, nanV3⟩

/-- The zero vector `[0,0,0]`. -/
def zeroV3 : V3 := numV3 0 0 0

/-- The zero matrix. -/
def zeroM3 : M3 := ⟨zeroV3, zeroV3, zeroV3⟩

/-- The identity matrix `[[1,0,0],[0,1,0],[0,0,1]]`. -/
def idM3 : M3 := ⟨numV3 1 0 0, numV3 0 1 0, numV3 0 0 1⟩

/-- Source `dot(a,b) = a[0]*b[0]+a[1]*b[1]+a[2]*b[2]` (left-associated as in JS). -/
def jsDot (u v : V3) : JsNum :=
  .add (.add (.mul u.x v.x) (.mul u.y v.y)) (.mul u.z v.z)

/-- Source `multiplyMatrixVec(M, v)`. -/
def jsMatVec (M : M3) (v : V3) : V3 :=
  ⟨jsDot M.r0 v, jsDot M.r1 v, jsDot M.r2 v⟩

/-- Source `transpose(A)` for a 3×3 matrix. -/
def jsTranspose (M : M3) : M3 :=
  ⟨⟨M.r0.x, M.r1.x, M.r2.x⟩, ⟨M.r0.y, M.r1.y, M.r2.y⟩, ⟨M.r0.z, M.r1.z, M.r2.z⟩⟩

/-- One row of `multiplyMatrices`: the accumulator starts at `0` (the
`fill(0)` in the source) and the `k` loop adds the three products in order. -/
def jsMMrow (r : V3) (B : M3) : V3 :=
  ⟨.add (.add (.add (.num 0) (.mul r.x B.r0.x)) (.mul r.y B.r1.x)) (.mul r.z B.r2.x),
   .add (.add (.add (.num 0) (.mul r.x B.r0.y)) (.mul r.y B.r1.y)) (.mul r.z B.r2.y),
   .add (.add (.add (.num 0) (.mul r.x B.r0.z)) (.mul r.y B.r1.z)) (.mul r.z B.r2.z)⟩

/-- Source `multiplyMatrices(A, B)` specialized to 3×3 (its only use). -/
def jsMM (A B : M3) : M3 := ⟨jsMMrow A.r0 B, jsMMrow A.r1 B, jsMMrow A.r2 B⟩

/-- Componentwise vector difference. -/
def vSub (p c : V3) : V3 := ⟨.sub p.x c.x, .sub p.y c.y, .sub p.z c.z⟩

/-- Componentwise vector sum. -/
def vAdd (p c : V3) : V3 := ⟨.add p.x c.x, .add p.y c.y, .add p.z c.z⟩

/-- Componentwise vector negation (source `Vt[2].map(v => -v)`). -/
def vNeg (p : V3) : V3 := ⟨.neg p.x, .neg p.y, .neg p.z⟩

/-- The determinant expansion written literally in `computeAlignment`
(lines 106–109 of `pubchemtest/index.js`), with JS left-association of
`a - b + c` as `(a - b) + c`. -/
def jsDet3 (R : M3) : JsNum :=
  .add (.sub (.mul R.r0.x (.sub (.mul R.r1.y R.r2.z) (.mul R.r1.z R.r2.y)))
             (.mul R.r0.y (.sub (.mul R.r1.x R.r2.z) (.mul R.r1.z R.r2.x))))
       (.mul R.r0.z (.sub (.mul R.r1.x R.r2.y) (.mul R.r1.y R.r2.x)))

/-- `Math.hypot(x, y, z)`: the square root of the sum of squares. -/
def jsHypot3 (v : V3) : JsNum :=
  .sqrt (.add (.add (.mul v.x v.x) (.mul v.y v.y)) (.mul v.z v.z))

/-! ## Rigid alignment engine (`computeAlignment`, `svd3x3`, `eigenSymmetric`) -/

/-- Source `centroid(points)`: componentwise sum divided by the length.
On an empty list JS computes `0/0 = NaN`, as does `JsNum.div`. -/
def jsCentroid (pts : List V3) : V3 :=
  let s := pts.foldl (fun acc p => vAdd acc p) zeroV3
  let n : JsNum := .num (pts.length : ℚ)
  ⟨.div s.x n, .div s.y n, .div s.z n⟩

/-- Accumulate one outer-product term of the covariance:
`H[r][c] += A[i][r] * B[i][c]`. -/
def addOuter (H : M3) (a b : V3) : M3 :=
  ⟨⟨.add H.r0.x (.mul a.x b.x), .add H.r0.y (.mul a.x b.y), .add H.r0.z (.mul a.x b.z)⟩,
   ⟨.add H.r1.x (.mul a.y b.x), .add H.r1.y (.mul a.y b.y), .add H.r1.z (.mul a.y b.z)⟩,
   ⟨.add H.r2.x (.mul a.z b.x), .add H.r2.y (.mul a.z b.y), .add H.r2.z (.mul a.z b.z)⟩⟩

/-- The cross-covariance `H` of `computeAlignment` (lines 83–97): center both
point lists on their centroids and sum the outer products.  The source
indexes `A[i]`/`B[i]` over the common length; callers pass equal-length
lists, modelled by `zip`. -/
def centeredH (ptsA ptsB : List V3) : M3 :=
  let cA := jsCentroid ptsA
  let cB := jsCentroid ptsB
  let A := ptsA.map (fun p => vSub p cA)
  let B := ptsB.map (fun p => vSub p cB)
  (List.zip A B).foldl (fun H ab => addOuter H ab.1 ab.2) zeroM3

/-- One iteration of the power-method loop in `eigenSymmetric`:
`v = A·v; v = v / hypot(v)`.  When `A·v` is the zero vector the norm is `0`
and each component becomes `0/0 = NaN`. -/
def powerStep (A : M3) (v : V3) : V3 :=
  let w := jsMatVec A v
  let nrm := jsHypot3 w
  ⟨.div w.x nrm, .div w.y nrm, .div w.z nrm⟩

/-- `n` iterations of `powerStep`. -/
def powerIter : ℕ → M3 → V3 → V3
  | 0, _, v => v
  | n + 1, A, v => powerIter n A (powerStep A v)

/-- Deflation: `A[i][j] -= λ * v[i] * v[j]` (JS association `(λ*v[i])*v[j]`). -/
def deflate (A : M3) (lam : JsNum) (v : V3) : M3 :=
  ⟨⟨.sub A.r0.x (.mul (.mul lam v.x) v.x), .sub A.r0.y (.mul (.mul lam v.x) v.y),
    .sub A.r0.z (.mul (.mul lam v.x) v.z)⟩,
   ⟨.sub A.r1.x (.mul (.mul lam v.y) v.x), .sub A.r1.y (.mul (.mul lam v.y) v.y),
    .sub A.r1.z (.mul (.mul lam v.y) v.z)⟩,
   ⟨.sub A.r2.x (.mul (.mul lam v.z) v.x), .sub A.r2.y (.mul (.mul lam v.z) v.y),
    .sub A.r2.z (.mul (.mul lam v.z) v.z)⟩⟩

/-- One `k`-round of `eigenSymmetric`: a random start vector (three draws of
`Math.random`, modelled by the stream `rs` at positions `3k, 3k+1, 3k+2`;
`Math.random` always returns a finite float, hence a rational), 15 power
iterations, the Rayleigh quotient `λ = v·(A·v)`, and deflation. -/
def eigenRound (rs : ℕ → ℚ) (k : ℕ) (A : M3) : V3 × JsNum × M3 :=
  let v0 : V3 := numV3 (rs (3 * k)) (rs (3 * k + 1)) (rs (3 * k + 2))
  let v := powerIter 15 A v0
  let lam := jsDot v (jsMatVec A v)
  (v, lam, deflate A lam v)

/-- Source `eigenSymmetric(M)`: three sequential dominant-eigenpair
extractions with deflation, on a working copy of `M`.  Returns
(eigenvectors, eigenvalues) as 3-element lists. -/
def eigenSymmetric (rs : ℕ → ℚ) (M : M3) : List V3 × List JsNum :=
  let e0 := eigenRound rs 0 M
  let e1 := eigenRound rs 1 e0.2.2
  let e2 := eigenRound rs 2 e1.2.2
  ([e0.1, e1.1, e2.1], [e0.2.1, e1.2.1, e2.2.1])

/-- The sort comparator `(a,b) => Svals[b] - Svals[a]` of `svd3x3`. -/
def svdCmp (svals : List JsNum) (a b : ℕ) : JsNum :=
  .sub (svals.getD b .nan) (svals.getD a .nan)

/-- Stable insertion of `x` into an already-sorted list under a JS sort
comparator: `x` is placed before the first `y` with `cmp x y < 0`; a zero or
NaN comparator result keeps the existing order (the ECMAScript SortCompare
clause maps a NaN comparator result to `+0`). -/
def sortInsert (cmp : ℕ → ℕ → JsNum) (x : ℕ) : List ℕ → List ℕ
  | [] => [x]
  | y :: t => if JsNum.lt (cmp x y) (.num 0) then x :: y :: t else y :: sortInsert cmp x t

/-- JS `Array.prototype.sort` with a numeric comparator, for the 3-element
index array `[0,1,2]` of `svd3x3`: a stable sort (required by ECMAScript)
agreeing with the comparator wherever it returns a nonzero number. -/
def jsSortWith (cmp : ℕ → ℕ → JsNum) (l : List ℕ) : List ℕ :=
  l.foldl (fun acc x => sortInsert cmp x acc) []

/-- Read a 3-element list of rows back as a matrix. -/
def rowsToM3 (l : List V3) : M3 := ⟨l.getD 0 nanV3, l.getD 1 nanV3, l.getD 2 nanV3⟩

/-- Source `svd3x3(M)`: eigen-decompose `MᵗM`, sort the eigenpairs by
descending eigenvalue, take `S = sqrt(eigenvalues)`, `Vt` = sorted
eigenvectors (as rows), and `U = M · (Vt / S)ᵗ` with the `S[i] || 1e-12`
falsy-guard on each divisor. -/
def svd3x3 (rs : ℕ → ℚ) (M : M3) : M3 × List JsNum × M3 :=
  let MtM := jsMM (jsTranspose M) M
  let eig := eigenSymmetric rs MtM
  let order := jsSortWith (svdCmp eig.2) [0, 1, 2]
  let S := order.map (fun i => JsNum.sqrt (eig.2.getD i .nan))
  let Vt := order.map (fun i => eig.1.getD i nanV3)
  let VinvS := (List.zip Vt S).map (fun vs =>
    let d := JsNum.orDefault vs.2 (.num (1 / 1000000000000))
    V3.mk (.div vs.1.x d) (.div vs.1.y d) (.div vs.1.z d))
  let U := jsMM M (jsTranspose (rowsToM3 VinvS))
  (U, S, rowsToM3 Vt)

/-- The SVD factors used by `computeAlignment` for a pair of point lists. -/
def svdParts (rs : ℕ → ℚ) (ptsA ptsB : List V3) : M3 × List JsNum × M3 :=
  svd3x3 rs (centeredH ptsA ptsB)

/-- The candidate rotation `R = Vt · Uᵀ` before reflection correction
(line 103 of the source; the source's `transpose(U)` of the returned `U`). -/
def candidateR (rs : ℕ → ℚ) (ptsA ptsB : List V3) : M3 :=
  let p := svdParts rs ptsA ptsB
  jsMM p.2.2 (jsTranspose p.1)

/-- Negate the last row (source `Vt[2] = Vt[2].map(v => -v)`). -/
def flipLastRow (M : M3) : M3 := ⟨M.r0, M.r1, vNeg M.r2⟩

/-- The rotation after the reflection check: if `det(R) < 0`, the third row
of `Vt` (the eigenvector of the smallest singular value, last after the
descending sort) is negated and `R` recomputed. -/
def correctedR (rs : ℕ → ℚ) (ptsA ptsB : List V3) : M3 :=
  let p := svdParts rs ptsA ptsB
  let R := jsMM p.2.2 (jsTranspose p.1)
  if JsNum.lt (jsDet3 R) (.num 0) then jsMM (flipLastRow p.2.2) (jsTranspose p.1) else R

/-- Source `computeAlignment(pointsA, pointsB)`: identity transform for an
empty pair list (`n === 0`), otherwise the Kabsch candidate rotation with
reflection correction and translation `t = cB - R·cA`. -/
def computeAlignment (rs : ℕ → ℚ) (ptsA ptsB : List V3) : M3 × V3 :=
  if ptsA.length = 0 then (idM3, zeroV3)
  else
    let R := correctedR rs ptsA ptsB
    let cA := jsCentroid ptsA
    let cB := jsCentroid ptsB
    (R, vSub cB (jsMatVec R cA))

/-! ## Data model and correspondence resolver (`computeAtomMapping`) -/

/-- Element table (`ELEMENTS` in `pubchemtest/index.js`). -/
def ELEMENTS : List String :=
  ["H", "C", "N", "O", "F", "P", "S", "Cl", "Br", "I", "Unknown"]

/-- A parsed bond line: 1-based `from`/`to` atom numbers minus one and the
bond-order code, each `none` when `parseInt` produced NaN.  The parser
performs no validation, so the integers may be negative, equal, or out of
range. -/
structure Bond where
  bfrom : Option ℤ
  bto : Option ℤ
  btype : Option ℤ
deriving DecidableEq, Repr

/-- A molecule as returned by `getMoleculePoints`: parallel `atoms` /
`elementIndexes` lists, bonds, and the correspondence to the previous
molecule (`none` both for "no previous molecule" and entry-wise for the
`-1` sentinel of an unmatched atom). -/
structure Molecule where
  atoms : List V3
  elementIndexes : List ℕ
  bonds : List Bond
  atomMapping : Option (List (Option ℕ))
deriving DecidableEq, Repr

/-- Membership in the undirected adjacency sets built by `adjacency(bonds, n)`:
`j ∈ adj[i]` iff some bond joins `i` and `j`. -/
def adjacentIn (bonds : List Bond) (i j : ℕ) : Bool :=
  bonds.any (fun b =>
    (b.bfrom = some (i : ℤ) && b.bto = some (j : ℤ)) ||
    (b.bfrom = some (j : ℤ) && b.bto = some (i : ℤ)))

/-- The candidate score of `computeAtomMapping`: the number of distinct
neighbors `nei` of `i` in A (the iteration over the JS `Set` `adjA[i]`)
with `nei < i`, already mapped, and whose image is adjacent to `j` in B.
Only neighbors below `i` can contribute, so counting over `range i`
coincides with the JS set iteration (out-of-range or negative neighbor
values never pass the `nei < i && mapping[nei] !== -1` guard with a mapped
image). -/
def mapScore (molA molB : Molecule) (mapping : List (Option ℕ)) (i j : ℕ) : ℕ :=
  ((List.range i).filter (fun nei =>
    adjacentIn molA.bonds nei i &&
    (match mapping.getD nei none with
     | some mj => adjacentIn molB.bonds mj j
     | none => false))).length

/-- The body of the inner `j` loop of `computeAtomMapping`: skip used atoms
and element-tag mismatches, update `(bestJ, bestScore)` only on a strictly
greater score (so ties keep the smallest `j`). -/
def pickStep (molA molB : Molecule) (mapping : List (Option ℕ)) (used : List Bool)
    (i : ℕ) (best : Option ℕ × ℤ) (j : ℕ) : Option ℕ × ℤ :=
  if used.getD j false then best
  else if molA.elementIndexes.getD i 0 ≠ molB.elementIndexes.getD j 0 then best
  else if best.2 < (mapScore molA molB mapping i j : ℤ)
    then (some j, (mapScore molA molB mapping i j : ℤ))
    else best

/-- The inner `j` loop of `computeAtomMapping`: fold `pickStep` over B's
atom indexes with state `(bestJ, bestScore)` starting at `(-1, -1)` (here
`(none, -1)`). -/
def pickBest (molA molB : Molecule) (mapping : List (Option ℕ)) (used : List Bool)
    (i : ℕ) : Option ℕ × ℤ :=
  (List.range molB.atoms.length).foldl (pickStep molA molB mapping used i) (none, -1)

/-- One iteration of the outer `i` loop: record the chosen `j` (if any) and
mark it used immediately. -/
def mappingStep (molA molB : Molecule) (st : List (Option ℕ) × List Bool) (i : ℕ) :
    List (Option ℕ) × List Bool :=
  match (pickBest molA molB st.1 st.2 i).1 with
  | some j => (st.1.set i (some j), st.2.set j true)
  | none => st

/-- The `(mapping, usedB)` state after processing A's atoms `0, …, i-1` in
ascending index order, from the initial all-unmatched / all-unused state. -/
def mappingState (molA molB : Molecule) (i : ℕ) : List (Option ℕ) × List Bool :=
  (List.range i).foldl (mappingStep molA molB)
    (List.replicate molA.atoms.length none, List.replicate molB.atoms.length false)

/-- Source `computeAtomMapping(molA, molB)`: the mapping after the single
pass over all of A's atoms. -/
def computeAtomMapping (molA molB : Molecule) : List (Option ℕ) :=
  (mappingState molA molB molA.atoms.length).1

/-! ## Coordinate normalizer (lines 264–291 of `pubchemtest/index.js`) -/

/-- `Math.min` over a spread nonempty array.  (JS yields `+Infinity` on an
empty spread; all callers pass at least one atom, and the empty case is
mapped to NaN here.) -/
def jsMinList : List JsNum → JsNum
  | [] => .nan
  | h :: t => t.foldl JsNum.jmin h

/-- `Math.max` over a spread nonempty array. -/
def jsMaxList : List JsNum → JsNum
  | [] => .nan
  | h :: t => t.foldl JsNum.jmax h

/-- Componentwise bounding-box minimum of the atom list. -/
def bboxMin (atoms : List V3) : V3 :=
  ⟨jsMinList (atoms.map V3.x), jsMinList (atoms.map V3.y), jsMinList (atoms.map V3.z)⟩

/-- Componentwise bounding-box maximum. -/
def bboxMax (atoms : List V3) : V3 :=
  ⟨jsMaxList (atoms.map V3.x), jsMaxList (atoms.map V3.y), jsMaxList (atoms.map V3.z)⟩

/-- The bounding-box midpoint `[(min+max)/2, …]` (source `center`). -/
def bboxCenter (atoms : List V3) : V3 :=
  let mn := bboxMin atoms
  let mx := bboxMax atoms
  ⟨.div (.add mn.x mx.x) (.num 2), .div (.add mn.y mx.y) (.num 2),
   .div (.add mn.z mx.z) (.num 2)⟩

/-- The bounding-box extents `max - min` (source `size`). -/
def bboxSize (atoms : List V3) : V3 :=
  vSub (bboxMax atoms) (bboxMin atoms)

/-- `Math.max(size[0], size[1], size[2])` (source `maxDim`). -/
def bboxMaxDim (atoms : List V3) : JsNum :=
  let s := bboxSize atoms
  JsNum.jmax (JsNum.jmax s.x s.y) s.z

/-- The uniform scale: `maxDim > 1.0 ? 1.0 / maxDim : 1.0` (a NaN `maxDim`
fails the comparison and yields scale 1, as in JS). -/
def normScale (atoms : List V3) : JsNum :=
  if JsNum.lt (.num 1) (bboxMaxDim atoms) then .div (.num 1) (bboxMaxDim atoms) else .num 1

/-- The centering-and-scaling map applied to every atom:
`[(a[0]-center[0])*scale, …]`. -/
def normalizeAtoms (atoms : List V3) : List V3 :=
  let c := bboxCenter atoms
  let s := normScale atoms
  atoms.map (fun a => ⟨.mul (.sub a.x c.x) s, .mul (.sub a.y c.y) s, .mul (.sub a.z c.z) s⟩)

/-! ## SDF structure parser (lines 212–240 of `pubchemtest/index.js`)

The network fetch and compound-name lookup are external collaborators; the
parser below models the processing of the fetched SDF text. -/

/-- Split a character list at every separator character satisfying `p`
(JS `split` semantics: separators delimit, empty pieces kept). -/
def splitOnP (p : Char → Bool) : List Char → List (List Char)
  | [] => [[]]
  | h :: t =>
    match splitOnP p t with
    | [] => [[]]
    | g :: gs => if p h then [] :: g :: gs else (h :: g) :: gs

/-- JS `sdf.split('\n')`. -/
def splitOnChar (c : Char) (l : List Char) : List (List Char) :=
  splitOnP (fun ch => ch = c) l

/-- JS `String.prototype.trim` on a character list: drop whitespace from
both ends. -/
def trimL (l : List Char) : List Char :=
  ((l.dropWhile Char.isWhitespace).reverse.dropWhile Char.isWhitespace).reverse

/-- JS `String.prototype.substr(start, len)` for a nonnegative start:
take `len` characters from position `start`, clamped to the string. -/
def jsSubstr (l : List Char) (start len : ℕ) : List Char :=
  (l.drop start).take len

/-- The decimal value of a digit run. -/
def digitsVal (ds : List Char) : ℕ :=
  ds.foldl (fun acc c => acc * 10 + (c.toNat - '0'.toNat)) 0

/-- JS `parseInt(s, 10)`: skip leading whitespace, optional sign, then a
digit run; NaN (`none`) when no digit follows. -/
def jsParseInt (s : List Char) : Option ℤ :=
  let cs := s.dropWhile Char.isWhitespace
  let sign : ℤ := if cs.head? = some '-' then -1 else 1
  let cs2 := if cs.head? = some '-' ∨ cs.head? = some '+' then cs.tail else cs
  let ds := cs2.takeWhile Char.isDigit
  if ds.isEmpty then none else some (sign * (digitsVal ds : ℤ))

/-- JS `parseFloat(s)` on fixed-point decimal text: skip leading whitespace,
optional sign, integer digits, optional `.` and fraction digits; NaN
(`none`) when no digit is found.  Exponent notation and `Infinity` do not
occur in SDF coordinate columns and are not modelled. -/
def jsParseFloat (s : List Char) : Option ℚ :=
  let cs := s.dropWhile Char.isWhitespace
  let sign : ℚ := if cs.head? = some '-' then -1 else 1
  let cs2 := if cs.head? = some '-' ∨ cs.head? = some '+' then cs.tail else cs
  let ds := cs2.takeWhile Char.isDigit
  let rest := cs2.dropWhile Char.isDigit
  let fs := if rest.head? = some '.' then rest.tail.takeWhile Char.isDigit else []
  if ds.isEmpty ∧ fs.isEmpty then none
  else some (sign * ((digitsVal ds : ℚ) + (digitsVal fs : ℚ) / (10 : ℚ) ^ fs.length))

/-- `trim().split(/\s+/)` on an already-trimmed string: split on whitespace
runs.  (On all-whitespace input JS returns `[""]` and ours `[]`; both make
every element lookup produce a NaN `parseInt`, the only use.) -/
def splitWs (s : List Char) : List (List Char) :=
  (splitOnP Char.isWhitespace s).filter (fun w => ¬w.isEmpty)

/-- JS `Array.prototype.slice(start, end)` with integer arguments
(negative indices count from the end, results clamped). -/
def jsSlice {α : Type} (l : List α) (s e : ℤ) : List α :=
  let n : ℤ := l.length
  let s' := (if s < 0 then max (n + s) 0 else min s n).toNat
  let e' := (if e < 0 then max (n + e) 0 else min e n).toNat
  (l.drop s').take (e' - s')

/-- JS `Array.prototype.indexOf` on the element table (−1 when absent). -/
def indexOfEl : List String → String → ℤ
  | [], _ => -1
  | h :: t, s =>
    if h = s then 0
    else
      let r := indexOfEl t s
      if r = -1 then -1 else r + 1

/-- `ELEMENTS.indexOf(el) >= 0 ? ELEMENTS.indexOf(el) : ELEMENTS.length - 1`. -/
def elementIndexOf (el : String) : ℕ :=
  let i := indexOfEl ELEMENTS el
  if 0 ≤ i then i.toNat else ELEMENTS.length - 1

/-- The slice end `4 + atomCount`; a NaN count makes the whole expression
NaN, which `ToIntegerOrInfinity` maps to `0`. -/
def atomSliceEnd (atomCount : Option ℤ) : ℤ :=
  match atomCount with
  | some k => 4 + k
  | none => 0

/-- The bond-slice end `4 + atomCount + bondCount`, NaN-propagated to `0`. -/
def bondSliceEnd (atomCount bondCount : Option ℤ) : ℤ :=
  match atomCount, bondCount with
  | some k, some m => 4 + k + m
  | _, _ => 0

/-- One raw atom line: element symbol from columns 31–33 (trimmed) and the
three fixed-width coordinate fields; `none` when any coordinate is NaN
(the `!isNaN` filter). -/
def parseAtomLine (line : List Char) : Option (String × ℚ × ℚ × ℚ) :=
  match jsParseFloat (jsSubstr line 0 10), jsParseFloat (jsSubstr line 10 10),
        jsParseFloat (jsSubstr line 20 10) with
  | some x, some y, some z => some (String.mk (trimL (jsSubstr line 31 3)), x, y, z)
  | _, _, _ => none

/-- One bond line: 1-based `from`/`to` converted to 0-based (NaN-preserving)
and the bond-order code.  No validation of any kind is performed. -/
def parseBondLine (line : List Char) : Bond :=
  ⟨(jsParseInt (jsSubstr line 0 3)).map (fun k => k - 1),
   (jsParseInt (jsSubstr line 3 3)).map (fun k => k - 1),
   jsParseInt (jsSubstr line 6 3)⟩

/-- The SDF record parser (lines 212–240): split into lines, require at
least 4, read the counts line, slice out atom and bond blocks, parse atom
lines (dropping coordinate-level NaN), fail when zero atoms remain, and
parse bond lines verbatim. -/
def parseSDF (sdf : String) : Except String (List V3 × List ℕ × List Bond) :=
  let lines := splitOnChar '\n' sdf.data
  if lines.length < 4 then .error "SDF too short"
  else
    let countLine := splitWs (trimL (lines.getD 3 []))
    let atomCount := jsParseInt (countLine.getD 0 [])
    let bondCount := jsParseInt (countLine.getD 1 [])
    let atomLines := jsSlice lines 4 (atomSliceEnd atomCount)
    let bondLines := jsSlice lines (atomSliceEnd atomCount) (bondSliceEnd atomCount bondCount)
    let atomsRaw := atomLines.filterMap parseAtomLine
    if atomsRaw.length = 0 then .error "Parsed zero atoms"
    else
      .ok (atomsRaw.map (fun a => numV3 a.2.1 a.2.2.1 a.2.2.2),
           atomsRaw.map (fun a => elementIndexOf a.1),
           bondLines.map parseBondLine)

/-! ## Sequence building (lines 242–291 and the viewer load loop) -/

/-- The matched point pairs `[atoms[i], previousMol.atoms[j]]` for the
defined entries of the mapping (source lines 247–249). -/
def pairsOf (mapping : List (Option ℕ)) (atoms prevAtoms : List V3) : List (V3 × V3) :=
  mapping.enum.filterMap (fun p =>
    p.2.map (fun j => (atoms.getD p.1 nanV3, prevAtoms.getD j nanV3)))

/-- The correspondence-and-alignment stage of `getMoleculePoints` (lines
242–262): compute the mapping against the previous molecule; if at least 3
matched pairs exist, compute the alignment and apply it to every atom,
otherwise leave the atoms untouched. -/
def alignStage (rs : ℕ → ℚ) (atoms : List V3) (elems : List ℕ) (bonds : List Bond)
    (prev : Molecule) : List V3 × List (Option ℕ) :=
  let mapping := computeAtomMapping ⟨atoms, elems, bonds, none⟩ prev
  let pairs := pairsOf mapping atoms prev.atoms
  if 3 ≤ pairs.length then
    let Rt := computeAlignment rs (pairs.map Prod.fst) (pairs.map Prod.snd)
    (atoms.map (fun a => vAdd (jsMatVec Rt.1 a) Rt.2), mapping)
  else (atoms, mapping)

/-- `getMoleculePoints` after the fetch: parse the SDF text, optionally
align against the previous molecule, then normalize.  Fetch/lookup failures
are external and out of scope; `rs` is the `Math.random` stream consumed by
the eigensolver. -/
def getMoleculePoints (rs : ℕ → ℚ) (sdf : String) (prev : Option Molecule) :
    Except String Molecule :=
  match parseSDF sdf with
  | .error e => .error e
  | .ok parsed =>
    match prev with
    | none => .ok ⟨normalizeAtoms parsed.1, parsed.2.1, parsed.2.2, none⟩
    | some pm =>
      let am := alignStage rs parsed.1 parsed.2.1 parsed.2.2 pm
      .ok ⟨normalizeAtoms am.1, parsed.2.1, parsed.2.2, some am.2⟩

/-- The viewer load loop (`loadMoleculesOnce`) from a given predecessor:
`for (const name of compoundsToLoad) { const mol = await getMoleculePoints(…); … }`.
There is no `try`/`catch`: an error from any element rejects the whole
loop, so later elements are never processed. -/
def loadMoleculesFrom (rs : ℕ → ℚ) (prev : Option Molecule) :
    List String → Except String (List Molecule)
  | [] => .ok []
  | r :: rest =>
    match getMoleculePoints rs r prev with
    | .error e => .error e
    | .ok m =>
      match loadMoleculesFrom rs (some m) rest with
      | .error e => .error e
      | .ok ms => .ok (m :: ms)

/-- `loadMoleculesOnce(compoundsToLoad)` on a fresh session (`POSITION_SETS`
empty): sequentially build each record, each aligned to its predecessor. -/
def loadMoleculesOnce (rs : ℕ → ℚ) (recs : List String) : Except String (List Molecule) :=
  loadMoleculesFrom rs none recs

/-! ## Transition/morph controller (`MolecularViewer.jsx` lines 34–117)

The controller state is the sprite pool plus `progress`/`animating`.  Bond
line geometry is derived per frame from the same interpolation factor and
is not referenced by the claims; it is omitted.  Coordinates here are exact
rationals: the controller performs only `+ - *` and `min`, which cannot
produce NaN from finite inputs. -/

/-- `progress < 0.5 ? 2*p*p : -1 + (4 - 2*p)*p` — the per-tick ease. -/
def easeT (p : ℚ) : ℚ := if p < 1 / 2 then 2 * p * p else -1 + (4 - 2 * p) * p

/-- THREE.js `lerp(a, b, t) = a + (b - a) * t`. -/
def lerpQ (a b t : ℚ) : ℚ := a + (b - a) * t

/-- A rational 3D point of the scene. -/
abbrev Q3 : Type := ℚ × ℚ × ℚ

/-- Componentwise lerp of two points. -/
def lerp3 (a b : Q3) (t : ℚ) : Q3 :=
  (lerpQ a.1 b.1 t, lerpQ a.2.1 b.2.1 t, lerpQ a.2.2 b.2.2 t)

/-- One sprite slot: live scene position and opacity plus the
`userData` morph fields (`start`, `target`, `fadeStart`, `fadeEnd`). -/
structure SpriteState where
  pos : Q3
  opacity : ℚ
  startP : Q3
  targetP : Q3
  fadeStart : ℚ
  fadeEnd : ℚ
deriving DecidableEq, Repr

/-- The controller state: the sprite pool and the module-level
`progress` / `animating` flags. -/
structure ViewerState where
  sprites : List SpriteState
  progress : ℚ
  animating : Bool
deriving DecidableEq, Repr

/-- The target data consumed by `transition(idx)`:
`POSITION_SETS[idx]`'s atoms and correspondence map. -/
structure TransitionTarget where
  atoms : List Q3
  atomMapping : Option (List (Option ℕ))
deriving DecidableEq, Repr

/-- Per-sprite body of `transition` (lines 61–75): capture the live position
and opacity as the new start, then choose the target — the mapped atom if
the correspondence defines one in range, else the raw-index fallback, else
stay in place and fade out. -/
def transitionSprite (tgt : TransitionTarget) (i : ℕ) (s : SpriteState) : SpriteState :=
  let mapped : Option ℕ :=
    match tgt.atomMapping with
    | some m =>
      match m.getD i none with
      | some j => if j < tgt.atoms.length then some j else none
      | none => none
    | none => none
  match mapped with
  | some j =>
    { s with startP := s.pos, fadeStart := s.opacity,
             targetP := tgt.atoms.getD j (0, 0, 0), fadeEnd := 1 }
  | none =>
    if i < tgt.atoms.length then
      { s with startP := s.pos, fadeStart := s.opacity,
               targetP := tgt.atoms.getD i (0, 0, 0), fadeEnd := 1 }
    else
      { s with startP := s.pos, fadeStart := s.opacity,
               targetP := s.pos, fadeEnd := 0 }

/-- Map with the element index, as `sharedSprites.forEach((s, i) => …)`. -/
def mapFrom {α β : Type} (f : ℕ → α → β) : ℕ → List α → List β
  | _, [] => []
  | k, a :: t => f k a :: mapFrom f (k + 1) t

/-- `transition(idx)` on the controller state: rewrite every sprite slot and
reset `progress = 0`, `animating = true`. -/
def beginTransition (tgt : TransitionTarget) (st : ViewerState) : ViewerState :=
  { sprites := mapFrom (transitionSprite tgt) 0 st.sprites,
    progress := 0,
    animating := true }

/-- One frame of the `animate` loop (lines 96–113) restricted to the morph
state: when animating, advance `progress` by `0.02` clamped to `1`, compute
the eased factor, and lerp every slot's position and opacity; `animating`
is cleared exactly when the clamped progress reaches `1` (the final frame
still applies the interpolation at `t(1) = 1`). -/
def tick (st : ViewerState) : ViewerState :=
  if st.animating then
    let p := min (st.progress + 1 / 50) 1
    let t := easeT p
    { sprites := st.sprites.map (fun s =>
        { s with pos := lerp3 s.startP s.targetP t,
                 opacity := lerpQ s.fadeStart s.fadeEnd t }),
      progress := p,
      animating := decide (p < 1) }
  else st

/-! ## Concrete instances used by counterexamples and witnesses -/

/-- A legitimate `Math.random` stream: every draw is `1/2`. -/
def rsHalf : ℕ → ℚ := fun _ => 1 / 2

/-- A legitimate `Math.random` stream whose three start vectors are
`(1/2,0,0)`, `(0,1/2,0)`, `(0,0,1/2)` (every value is in `[0,1)`). -/
def rsAxes : ℕ → ℚ := fun n => if n = 0 ∨ n = 4 ∨ n = 8 then 1 / 2 else 0

/-- A legitimate `Math.random` stream whose start vectors are all
`(1/2,0,0)`. -/
def rsXonly : ℕ → ℚ := fun n => if n % 3 = 0 then 1 / 2 else 0

/-- Six non-collinear points: `±e1, ±e2, ±e3`. -/
def ptsOcta : List V3 :=
  [numV3 1 0 0, numV3 (-1) 0 0, numV3 0 1 0, numV3 0 (-1) 0, numV3 0 0 1, numV3 0 0 (-1)]

/-- The mirror image of `ptsOcta` through the `z = 0` plane, listed pairwise. -/
def ptsOctaMirror : List V3 :=
  [numV3 1 0 0, numV3 (-1) 0 0, numV3 0 1 0, numV3 0 (-1) 0, numV3 0 0 (-1), numV3 0 0 1]

/-- Four non-collinear coplanar points: `±e1, ±e2`. -/
def ptsSquare : List V3 :=
  [numV3 1 0 0, numV3 (-1) 0 0, numV3 0 1 0, numV3 0 (-1) 0]

/-- Three matched pairs all coincident with their centroid. -/
def ptsCoincident : List V3 := [numV3 1 2 3, numV3 1 2 3, numV3 1 2 3]

/-- A well-formed single-atom SDF record (carbon at the origin). -/
def sdfGood : String :=
  "a\nb\nc\n  1  0\n    0.0000    0.0000    0.0000 C"

/-- A structurally complete record that declares zero atoms: parsing raises
`Parsed zero atoms`. -/
def sdfZeroAtoms : String :=
  "a\nb\nc\n  0  0"

/-- A record with two atoms and one self-loop bond line `  1  1  1`
(`from = to = 0` after the 1-based conversion): the parser accepts it. -/
def sdfSelfLoop : String :=
  "a\nb\nc\n  2  1\n    0.0000    0.0000    0.0000 C\n    1.0000    0.0000    0.0000 C\n  1  1  1"

/-- Decidable check that every bond joins two distinct valid atom indexes —
the data-model invariant claimed for parser output. -/
def bondsWellFormed (bonds : List Bond) (nAtoms : ℕ) : Bool :=
  bonds.all (fun b =>
    match b.bfrom, b.bto with
    | some f, some t => 0 ≤ f && f < (nAtoms : ℤ) && 0 ≤ t && t < (nAtoms : ℤ) && f ≠ t
    | _, _ => false)

/-- A two-atom molecule (C, H with one bond) used to exercise the resolver. -/
def molCH : Molecule :=
  ⟨[numV3 0 0 0, numV3 1 0 0], [1, 0], [⟨some 0, some 1, some 1⟩], none⟩

/-- A molecule with no atoms (as a previous-molecule value: every atom of
the new molecule is then unmatched and no alignment pairs exist). -/
def prevEmpty : Molecule := ⟨[], [], [], none⟩

/-- Lift a list of rational points into JS-number vectors. -/
def liftPts (l : List Q3) : List V3 := l.map (fun p => numV3 p.1 p.2.1 p.2.2)

/-- A two-point rational atom list spanning 2 units in x. -/
def exPts : List Q3 := [(0, 0, 0), (2, 0, 0)]

/-- A one-sprite controller state mid-flight at progress `0.4`. -/
def stEx : ViewerState :=
  ⟨[⟨(0, 0, 0), 1, (0, 0, 0), (1, 0, 0), 0, 1⟩], 2 / 5, true⟩

/-- A one-atom transition target with no correspondence map. -/
def tgtEx : TransitionTarget := ⟨[(5, 5, 5)], none⟩

deriving instance DecidableEq for Except

/-! ## NaN-propagation lemmas -/

theorem JsNum.mul_nan (a : JsNum) : a.mul .nan = .nan := by cases a <;> rfl

theorem JsNum.nan_mul (a : JsNum) : JsNum.mul .nan a = .nan := by cases a <;> rfl

theorem JsNum.add_nan (a : JsNum) : a.add .nan = .nan := by cases a <;> rfl

theorem JsNum.nan_add (a : JsNum) : JsNum.add .nan a = .nan := by cases a <;> rfl

theorem JsNum.sub_nan (a : JsNum) : a.sub .nan = .nan := by cases a <;> rfl

theorem jsDot_nanV3_right (u : V3) : jsDot u nanV3 = .nan := by
  show JsNum.add (JsNum.add (u.x.mul .nan) (u.y.mul .nan)) (u.z.mul .nan) = .nan
  rw [JsNum.mul_nan, JsNum.mul_nan, JsNum.mul_nan, JsNum.add_nan]

theorem jsDot_nanV3_left (v : V3) : jsDot nanV3 v = .nan := by
  show JsNum.add (JsNum.add (JsNum.mul .nan v.x) (JsNum.mul .nan v.y)) (JsNum.mul .nan v.z)
    = .nan
  rw [JsNum.nan_mul, JsNum.nan_mul, JsNum.nan_mul, JsNum.nan_add]
  rfl

theorem jsMatVec_nanV3 (A : M3) : jsMatVec A nanV3 = nanV3 := by
  show V3.mk (jsDot A.r0 nanV3) (jsDot A.r1 nanV3) (jsDot A.r2 nanV3) = nanV3
  rw [jsDot_nanV3_right, jsDot_nanV3_right, jsDot_nanV3_right]
  rfl

theorem jsMatVec_nanM3 (v : V3) : jsMatVec nanM3 v = nanV3 := by
  show V3.mk (jsDot nanV3 v) (jsDot nanV3 v) (jsDot nanV3 v) = nanV3
  rw [jsDot_nanV3_left]
  rfl

theorem powerStep_nanV3 (A : M3) : powerStep A nanV3 = nanV3 := by
  simp only [powerStep, jsMatVec_nanV3]
  rfl

theorem powerIter_nanV3 (n : ℕ) (A : M3) : powerIter n A nanV3 = nanV3 := by
  induction n with
  | zero => rfl
  | succ k ih => rw [powerIter, powerStep_nanV3, ih]

theorem jsMatVec_zero_num (a b c : ℚ) : jsMatVec zeroM3 (numV3 a b c) = zeroV3 := by
  show V3.mk (jsDot zeroV3 (numV3 a b c)) (jsDot zeroV3 (numV3 a b c))
      (jsDot zeroV3 (numV3 a b c)) = zeroV3
  have h : jsDot zeroV3 (numV3 a b c) = .num 0 := by
    show JsNum.num (0 * a + 0 * b + 0 * c) = .num 0
    norm_num
  rw [h]
  rfl

unseal Rat.add Rat.mul Rat.inv Rat.sub in
theorem jsHypot3_zeroV3 : jsHypot3 zeroV3 = .num 0 := by decide

theorem powerStep_zero_num (a b c : ℚ) : powerStep zeroM3 (numV3 a b c) = nanV3 := by
  simp only [powerStep, jsMatVec_zero_num, jsHypot3_zeroV3]
  rfl

theorem deflate_nan (A : M3) : deflate A .nan nanV3 = nanM3 := by
  show M3.mk
      (V3.mk (JsNum.sub A.r0.x ((JsNum.mul (JsNum.mul .nan .nan) .nan)))
        (JsNum.sub A.r0.y ((JsNum.mul (JsNum.mul .nan .nan) .nan)))
        (JsNum.sub A.r0.z ((JsNum.mul (JsNum.mul .nan .nan) .nan))))
      (V3.mk (JsNum.sub A.r1.x ((JsNum.mul (JsNum.mul .nan .nan) .nan)))
        (JsNum.sub A.r1.y ((JsNum.mul (JsNum.mul .nan .nan) .nan)))
        (JsNum.sub A.r1.z ((JsNum.mul (JsNum.mul .nan .nan) .nan))))
      (V3.mk (JsNum.sub A.r2.x ((JsNum.mul (JsNum.mul .nan .nan) .nan)))
        (JsNum.sub A.r2.y ((JsNum.mul (JsNum.mul .nan .nan) .nan)))
        (JsNum.sub A.r2.z ((JsNum.mul (JsNum.mul .nan .nan) .nan))))
    = nanM3
  rw [show JsNum.mul (JsNum.mul .nan .nan) .nan = .nan from rfl]
  simp only [JsNum.sub_nan]
  rfl

theorem eigenRound_zeroM3 (rs : ℕ → ℚ) (k : ℕ) :
    eigenRound rs k zeroM3 = (nanV3, .nan, nanM3) := by
  simp only [eigenRound]
  rw [show (15 : ℕ) = 14 + 1 from rfl, powerIter, powerStep_zero_num, powerIter_nanV3,
    jsMatVec_nanV3, jsDot_nanV3_left, deflate_nan]

theorem powerStep_nanM3 (v : V3) : powerStep nanM3 v = nanV3 := by
  simp only [powerStep, jsMatVec_nanM3]
  rfl

theorem eigenRound_nanM3 (rs : ℕ → ℚ) (k : ℕ) :
    eigenRound rs k nanM3 = (nanV3, .nan, nanM3) := by
  simp only [eigenRound]
  rw [show (15 : ℕ) = 14 + 1 from rfl, powerIter, powerStep_nanM3, powerIter_nanV3,
    jsMatVec_nanM3, jsDot_nanV3_left, deflate_nan]

theorem eigenSymmetric_zeroM3 (rs : ℕ → ℚ) :
    eigenSymmetric rs zeroM3 = ([nanV3, nanV3, nanV3], [.nan, .nan, .nan]) := by
  simp [eigenSymmetric, eigenRound_zeroM3, eigenRound_nanM3]

unseal Rat.add Rat.mul Rat.inv Rat.sub in
theorem jsMM_transpose_zeroM3 : jsMM (jsTranspose zeroM3) zeroM3 = zeroM3 := by decide

theorem svd3x3_zeroM3 (rs : ℕ → ℚ) :
    svd3x3 rs zeroM3 = (nanM3, [.nan, .nan, .nan], nanM3) := by
  simp only [svd3x3]
  rw [jsMM_transpose_zeroM3, eigenSymmetric_zeroM3]
  rfl

unseal Rat.add Rat.mul Rat.inv Rat.sub in
theorem centeredH_coincident : centeredH ptsCoincident ptsCoincident = zeroM3 := by decide

/-! ## Claim C1: alignment with fewer than 3 pairs -/

set_option maxRecDepth 40000 in
unseal Rat.add Rat.mul Rat.inv Rat.sub in
/-- C1 counterexample: with a single matched pair (fewer than 3), the
alignment routine does not return the identity transform.  `computeAlignment`
short-circuits only on `n === 0`; with one pair the centered points are zero,
the covariance is the zero matrix, and the randomized eigensolver divides by
a zero norm, so the result is all-NaN rather than the identity. -/
theorem computeAlignment_one_pair_not_identity :
    computeAlignment rsHalf [numV3 1 2 3] [numV3 4 5 6] ≠ (idM3, zeroV3) := by
  decide

/-- C1 (amended): `computeAlignment` returns the identity transform exactly
for an empty pair list (`n === 0`); lists of length 1 or 2 are never passed
to it by the pipeline, because the caller applies the alignment only when at
least 3 matched pairs exist and otherwise leaves every atom unchanged (the
identity transform in effect). -/
theorem computeAlignment_lt3_identity_guard :
    (∀ rs : ℕ → ℚ, computeAlignment rs [] [] = (idM3, zeroV3))
    ∧ ∀ (rs : ℕ → ℚ) (atoms : List V3) (elems : List ℕ) (bonds : List Bond)
        (prev : Molecule),
        (pairsOf (computeAtomMapping ⟨atoms, elems, bonds, none⟩ prev) atoms
          prev.atoms).length < 3 →
        (alignStage rs atoms elems bonds prev).1 = atoms := by
  constructor
  · intro rs
    simp [computeAlignment]
  · intro rs atoms elems bonds prev h
    simp only [alignStage]
    rw [if_neg (by omega)]

/-- C1 amended-claim witness: a one-atom molecule against an empty previous
molecule yields zero matched pairs, and the alignment stage leaves the atom
list untouched. -/
theorem computeAlignment_lt3_identity_guard_witness :
    (pairsOf (computeAtomMapping ⟨[numV3 0 0 0], [1], [], none⟩ prevEmpty)
      [numV3 0 0 0] prevEmpty.atoms).length < 3
    ∧ (alignStage rsHalf [numV3 0 0 0] [1] [] prevEmpty).1 = [numV3 0 0 0] :=
  ⟨by decide, computeAlignment_lt3_identity_guard.2 rsHalf _ _ _ _ (by decide)⟩

/-! ## Claim C5: reflection correction and the determinant -/

theorem JsNum.mul_negR (a b : JsNum) : a.mul b.neg = (a.mul b).neg := by
  cases a <;> cases b <;> simp [mul, neg]

theorem JsNum.mul_negL (a b : JsNum) : a.neg.mul b = (a.mul b).neg := by
  cases a <;> cases b <;> simp [mul, neg]

theorem JsNum.sub_negs (a b : JsNum) : a.neg.sub b.neg = (a.sub b).neg := by
  cases a <;> cases b <;> simp [sub, neg] <;> ring

theorem JsNum.add_negs (a b : JsNum) : a.neg.add b.neg = (a.add b).neg := by
  cases a <;> cases b <;> simp [add, neg] <;> ring

theorem JsNum.zero_add_neg (t : JsNum) :
    (JsNum.num 0).add t.neg = ((JsNum.num 0).add t).neg := by
  cases t <;> simp [add, neg]

theorem jsMMrow_vNeg (r : V3) (B : M3) : jsMMrow (vNeg r) B = vNeg (jsMMrow r B) := by
  simp [jsMMrow, vNeg, JsNum.mul_negL, JsNum.zero_add_neg, JsNum.add_negs]

theorem jsMM_flipLastRow (A B : M3) :
    jsMM (flipLastRow A) B = flipLastRow (jsMM A B) := by
  simp [jsMM, flipLastRow, jsMMrow_vNeg]

theorem jsDet3_flipLastRow (M : M3) : jsDet3 (flipLastRow M) = (jsDet3 M).neg := by
  simp [jsDet3, flipLastRow, vNeg, JsNum.mul_negR, JsNum.sub_negs, JsNum.add_negs]

/-- C5 (amended): with at least 3 pairs, whenever the candidate rotation
`R = Vt·Uᵀ` has a (numeric) negative determinant, `computeAlignment` negates
the last row of `Vt` — the eigenvector associated with the smallest singular
value after the descending sort — and recomputes `R`; this recomputation
exactly negates the determinant, so the returned rotation has positive
determinant.  (The original claim's further assertion that the determinant
is always ≈ +1 for non-collinear inputs fails for unlucky `Math.random`
draws; see the counterexample.) -/
theorem alignment_reflection_negates_det (rs : ℕ → ℚ) (ptsA ptsB : List V3) (d : ℚ)
    (hn : 3 ≤ ptsA.length)
    (hdet : jsDet3 (candidateR rs ptsA ptsB) = .num d) (hd : d < 0) :
    (computeAlignment rs ptsA ptsB).1
        = jsMM (flipLastRow (svdParts rs ptsA ptsB).2.2)
            (jsTranspose (svdParts rs ptsA ptsB).1)
      ∧ jsDet3 (computeAlignment rs ptsA ptsB).1 = .num (-d)
      ∧ 0 < -d := by
  have h0 : ¬ ptsA.length = 0 := by omega
  have hcand : candidateR rs ptsA ptsB
      = jsMM (svdParts rs ptsA ptsB).2.2 (jsTranspose (svdParts rs ptsA ptsB).1) := by
    simp [candidateR]
  have hlt : JsNum.lt
      (jsDet3 (jsMM (svdParts rs ptsA ptsB).2.2 (jsTranspose (svdParts rs ptsA ptsB).1)))
      (.num 0) = true := by
    rw [← hcand, hdet]
    simpa [JsNum.lt] using hd
  have hR : (computeAlignment rs ptsA ptsB).1 = correctedR rs ptsA ptsB := by
    simp [computeAlignment, h0]
  have hcor : correctedR rs ptsA ptsB
      = jsMM (flipLastRow (svdParts rs ptsA ptsB).2.2)
          (jsTranspose (svdParts rs ptsA ptsB).1) := by
    simp only [correctedR]
    rw [hlt]
    simp
  refine ⟨by rw [hR, hcor], ?_, by linarith⟩
  rw [hR, hcor, jsMM_flipLastRow, jsDet3_flipLastRow, ← hcand, hdet]
  rfl

set_option maxRecDepth 40000 in
unseal Rat.add Rat.mul Rat.inv Rat.sub in
/-- C5 witness: for the octahedron matched to its mirror image (6 pairs) and
an admissible random stream, the candidate rotation is `diag(1,1,-1)` with
determinant exactly `-1`; the reflection-corrected rotation returned has
determinant exactly `+1`. -/
theorem alignment_reflection_negates_det_witness :
    3 ≤ ptsOcta.length
    ∧ jsDet3 (candidateR rsAxes ptsOcta ptsOctaMirror) = .num (-1)
    ∧ ((-1 : ℚ) < 0)
    ∧ jsDet3 (computeAlignment rsAxes ptsOcta ptsOctaMirror).1 = .num (-(-1)) :=
  ⟨by decide, by decide, by norm_num,
    (alignment_reflection_negates_det rsAxes ptsOcta ptsOctaMirror (-1)
      (by decide) (by decide) (by norm_num)).2.1⟩

set_option maxRecDepth 40000 in
unseal Rat.add Rat.mul Rat.inv Rat.sub in
/-- C5 counterexample: `ptsSquare` gives 4 non-collinear matched pairs
(`±e1, ±e2`, identical on both sides), yet for the admissible random stream
`rsXonly` (every draw `(1/2, 0, 0)`) the deflated power iteration collapses
to a zero vector, every subsequent quantity is NaN, and the determinant of
the returned rotation is NaN — not approximately `+1`. -/
theorem alignment_det_nan_counterexample :
    3 ≤ ptsSquare.length
    ∧ jsDet3 (computeAlignment rsXonly ptsSquare ptsSquare).1 = JsNum.nan :=
  ⟨by decide, by decide⟩

/-! ## Claim C10: coincident points produce NaN output -/

/-- C10: for 3 matched pairs whose points all coincide with the pair
centroid, the cross-covariance `H` is the zero matrix, and — for every
possible `Math.random` stream — the power iteration divides the zero vector
by its zero norm, so the rotation returned by `computeAlignment` is the
all-NaN matrix: no guard exists, and the degenerate case yields non-finite
output rather than an identity transform or an error. -/
theorem computeAlignment_coincident_nan :
    centeredH ptsCoincident ptsCoincident = zeroM3
    ∧ ∀ rs : ℕ → ℚ, (computeAlignment rs ptsCoincident ptsCoincident).1 = nanM3 := by
  refine ⟨centeredH_coincident, fun rs => ?_⟩
  have h0 : ¬ ptsCoincident.length = 0 := by decide
  have hR : (computeAlignment rs ptsCoincident ptsCoincident).1
      = correctedR rs ptsCoincident ptsCoincident := by
    simp [computeAlignment, h0]
  rw [hR]
  simp only [correctedR, svdParts, centeredH_coincident, svd3x3_zeroM3]
  rfl

/-! ## Claims C2 and C3: the correspondence resolver -/

theorem getD_replicate_none {α : Type} (n i : ℕ) :
    (List.replicate n (none : Option α)).getD i none = none := by
  induction n generalizing i with
  | zero => rfl
  | succ k ih =>
    cases i with
    | zero => rfl
    | succ j => simpa [List.replicate] using ih j

theorem getD_set_ne {α : Type} (l : List α) (i j : ℕ) (a d : α) (h : i ≠ j) :
    (l.set i a).getD j d = l.getD j d := by
  induction l generalizing i j with
  | nil => rfl
  | cons hd tl ih =>
    cases i with
    | zero =>
      cases j with
      | zero => exact absurd rfl h
      | succ j2 => rfl
    | succ i2 =>
      cases j with
      | zero => rfl
      | succ j2 => simpa [List.set] using ih i2 j2 (by omega)

theorem getD_set_self {α : Type} (l : List α) (i : ℕ) (a d : α) (h : i < l.length) :
    (l.set i a).getD i d = a := by
  induction l generalizing i with
  | nil => simp at h
  | cons hd tl ih =>
    cases i with
    | zero => rfl
    | succ i2 => simpa [List.set] using ih i2 (by simpa using h)

/-- Characterization of the inner candidate-selection fold of
`computeAtomMapping` over the first `m` indexes of B: it returns `none`
(with best score still `-1`) exactly when no unused equal-tag candidate
exists, and otherwise the unused equal-tag candidate of maximal score,
ties broken towards the smallest index. -/
theorem pickFold_spec (molA molB : Molecule) (mapping : List (Option ℕ))
    (used : List Bool) (i m : ℕ) :
    (((List.range m).foldl (pickStep molA molB mapping used i) (none, -1)).1 = none →
      ((List.range m).foldl (pickStep molA molB mapping used i) (none, -1)).2 = -1
      ∧ ∀ j, j < m → used.getD j false = true
          ∨ molA.elementIndexes.getD i 0 ≠ molB.elementIndexes.getD j 0)
    ∧ ∀ j, ((List.range m).foldl (pickStep molA molB mapping used i) (none, -1)).1 = some j →
        j < m
        ∧ used.getD j false = false
        ∧ molA.elementIndexes.getD i 0 = molB.elementIndexes.getD j 0
        ∧ ((List.range m).foldl (pickStep molA molB mapping used i) (none, -1)).2
            = (mapScore molA molB mapping i j : ℤ)
        ∧ (∀ k, k < m → used.getD k false = false →
            molA.elementIndexes.getD i 0 = molB.elementIndexes.getD k 0 →
            mapScore molA molB mapping i k ≤ mapScore molA molB mapping i j)
        ∧ (∀ k, k < j → used.getD k false = false →
            molA.elementIndexes.getD i 0 = molB.elementIndexes.getD k 0 →
            mapScore molA molB mapping i k < mapScore molA molB mapping i j) := by
  induction m with
  | zero =>
    constructor
    · intro _
      exact ⟨rfl, fun j hj => absurd hj (by omega)⟩
    · intro j hj
      simp [List.range_zero] at hj
  | succ m ih =>
    have hstep : (List.range (m + 1)).foldl (pickStep molA molB mapping used i) (none, -1)
        = pickStep molA molB mapping used i
            ((List.range m).foldl (pickStep molA molB mapping used i) (none, -1)) m := by
      rw [List.range_succ, List.foldl_append, List.foldl_cons, List.foldl_nil]
    by_cases hu : used.getD m false = true
    · have heq : pickStep molA molB mapping used i
          ((List.range m).foldl (pickStep molA molB mapping used i) (none, -1)) m
          = (List.range m).foldl (pickStep molA molB mapping used i) (none, -1) := by
        simp only [pickStep]
        rw [hu]
        simp
      rw [hstep, heq]
      refine ⟨fun hn => ?_, fun j hj => ?_⟩
      · obtain ⟨h2, hall⟩ := ih.1 hn
        refine ⟨h2, fun j hj => ?_⟩
        by_cases hjm : j < m
        · exact hall j hjm
        · have hj2 : j = m := by omega
          exact Or.inl (hj2 ▸ hu)
      · obtain ⟨h1, h2, h3, h4, h5, h6⟩ := ih.2 j hj
        refine ⟨by omega, h2, h3, h4, fun k hk hku hkt => ?_, h6⟩
        by_cases hkm : k < m
        · exact h5 k hkm hku hkt
        · have hk2 : k = m := by omega
          rw [hk2, hu] at hku
          exact absurd hku (by simp)
    · replace hu : used.getD m false = false := by
        cases h : used.getD m false
        · rfl
        · exact absurd h hu
      by_cases ht : molA.elementIndexes.getD i 0 = molB.elementIndexes.getD m 0
      · by_cases hcmp : ((List.range m).foldl (pickStep molA molB mapping used i)
            (none, -1)).2 < (mapScore molA molB mapping i m : ℤ)
        · have heq : pickStep molA molB mapping used i
              ((List.range m).foldl (pickStep molA molB mapping used i) (none, -1)) m
              = (some m, (mapScore molA molB mapping i m : ℤ)) := by
            simp only [pickStep]
            rw [hu]
            rw [if_neg (by simp), if_neg (not_not_intro ht), if_pos hcmp]
          rw [hstep, heq]
          refine ⟨fun hn => by simp at hn, fun j hj => ?_⟩
          have hjm : m = j := by simpa using hj
          subst hjm
          refine ⟨by omega, hu, ht, rfl, fun k hk hku hkt => ?_, fun k hk hku hkt => ?_⟩
          · by_cases hkm : k < m
            · cases hfold : ((List.range m).foldl (pickStep molA molB mapping used i)
                  (none, -1)).1 with
              | none =>
                obtain ⟨_, hall⟩ := ih.1 hfold
                rcases hall k hkm with h | h
                · rw [hku] at h
                  exact absurd h (by simp)
                · exact absurd hkt h
              | some jb =>
                obtain ⟨_, _, _, hv, hmax, _⟩ := ih.2 jb hfold
                have h1 := hmax k hkm hku hkt
                rw [hv] at hcmp
                have h2 : mapScore molA molB mapping i jb
                    < mapScore molA molB mapping i m := by
                  exact_mod_cast hcmp
                omega
            · have hk2 : k = m := by omega
              subst hk2
              exact le_refl _
          · have hkm : k < m := by omega
            cases hfold : ((List.range m).foldl (pickStep molA molB mapping used i)
                (none, -1)).1 with
            | none =>
              obtain ⟨_, hall⟩ := ih.1 hfold
              rcases hall k hkm with h | h
              · rw [hku] at h
                exact absurd h (by simp)
              · exact absurd hkt h
            | some jb =>
              obtain ⟨_, _, _, hv, hmax, _⟩ := ih.2 jb hfold
              have h1 := hmax k hkm hku hkt
              rw [hv] at hcmp
              have h2 : mapScore molA molB mapping i jb
                  < mapScore molA molB mapping i m := by
                exact_mod_cast hcmp
              omega
        · have heq : pickStep molA molB mapping used i
              ((List.range m).foldl (pickStep molA molB mapping used i) (none, -1)) m
              = (List.range m).foldl (pickStep molA molB mapping used i) (none, -1) := by
            simp only [pickStep]
            rw [hu]
            rw [if_neg (by simp), if_neg (not_not_intro ht), if_neg hcmp]
          rw [hstep, heq]
          refine ⟨fun hn => ?_, fun j hj => ?_⟩
          · obtain ⟨h2, _⟩ := ih.1 hn
            rw [h2] at hcmp
            exact absurd (by omega : (-1 : ℤ) < (mapScore molA molB mapping i m : ℤ)) hcmp
          · obtain ⟨h1, h2, h3, h4, h5, h6⟩ := ih.2 j hj
            refine ⟨by omega, h2, h3, h4, fun k hk hku hkt => ?_, h6⟩
            by_cases hkm : k < m
            · exact h5 k hkm hku hkt
            · have hkm2 : k = m := by omega
              subst hkm2
              rw [h4] at hcmp
              have h7 : (mapScore molA molB mapping i k : ℤ)
                  ≤ (mapScore molA molB mapping i j : ℤ) := by omega
              exact_mod_cast h7
      · have heq : pickStep molA molB mapping used i
            ((List.range m).foldl (pickStep molA molB mapping used i) (none, -1)) m
            = (List.range m).foldl (pickStep molA molB mapping used i) (none, -1) := by
          simp only [pickStep]
          rw [hu]
          rw [if_neg (by simp), if_pos ht]
        rw [hstep, heq]
        refine ⟨fun hn => ?_, fun j hj => ?_⟩
        · obtain ⟨h2, hall⟩ := ih.1 hn
          refine ⟨h2, fun j hj => ?_⟩
          by_cases hjm : j < m
          · exact hall j hjm
          · have hj2 : j = m := by omega
            exact Or.inr (hj2 ▸ ht)
        · obtain ⟨h1, h2, h3, h4, h5, h6⟩ := ih.2 j hj
          refine ⟨by omega, h2, h3, h4, fun k hk hku hkt => ?_, h6⟩
          by_cases hkm : k < m
          · exact h5 k hkm hku hkt
          · have hk2 : k = m := by omega
            exact absurd (hk2 ▸ hkt) ht

theorem mappingState_succ (molA molB : Molecule) (i : ℕ) :
    mappingState molA molB (i + 1)
      = mappingStep molA molB (mappingState molA molB i) i := by
  simp only [mappingState]
  rw [List.range_succ, List.foldl_append, List.foldl_cons, List.foldl_nil]

theorem mappingState_lengths (molA molB : Molecule) (i : ℕ) :
    (mappingState molA molB i).1.length = molA.atoms.length
    ∧ (mappingState molA molB i).2.length = molB.atoms.length := by
  induction i with
  | zero => simp [mappingState]
  | succ k ih =>
    rw [mappingState_succ]
    unfold mappingStep
    cases h : (pickBest molA molB (mappingState molA molB k).1
        (mappingState molA molB k).2 k).1 with
    | none => exact ih
    | some j => simpa using ih

theorem mappingState_getD_of_le (molA molB : Molecule) (i : ℕ) :
    ∀ k, k ≤ i → (mappingState molA molB k).1.getD i none = none := by
  intro k
  induction k with
  | zero => exact fun _ => getD_replicate_none _ _
  | succ k2 ih =>
    intro h
    rw [mappingState_succ]
    unfold mappingStep
    cases hp : (pickBest molA molB (mappingState molA molB k2).1
        (mappingState molA molB k2).2 k2).1 with
    | none => exact ih (by omega)
    | some j =>
      have hne : k2 ≠ i := by omega
      rw [getD_set_ne (mappingState molA molB k2).1 k2 i (some j) none hne]
      exact ih (by omega)

theorem mappingState_entry_stable (molA molB : Molecule) (i m : ℕ) (h : i < m) :
    (mappingState molA molB m).1.getD i none
      = (mappingState molA molB (i + 1)).1.getD i none := by
  induction m with
  | zero => omega
  | succ m2 ih =>
    by_cases hm : i + 1 = m2 + 1
    · rw [hm]
    · have hlt : i < m2 := by omega
      rw [mappingState_succ]
      unfold mappingStep
      cases hp : (pickBest molA molB (mappingState molA molB m2).1
          (mappingState molA molB m2).2 m2).1 with
      | none => exact ih hlt
      | some j =>
        have hne : m2 ≠ i := by omega
        rw [getD_set_ne (mappingState molA molB m2).1 m2 i (some j) none hne]
        exact ih hlt

/-- C2: the correspondence resolver is a single ascending pass.  For each
atom `i` of A (with state `mappingState … i` reached after atoms
`0, …, i-1`): the state advances by exactly one `mappingStep`; the final
mapping's entry at `i` equals the choice made at step `i` and is never
revised afterwards; the entry is unmatched exactly when no unused B atom
shares `i`'s element tag; and a chosen `j` is an unused equal-tag candidate
of maximal score (ties to the smallest B index, strictly beating every
smaller candidate), marked used immediately. -/
theorem computeAtomMapping_greedy (molA molB : Molecule) (i : ℕ)
    (hi : i < molA.atoms.length) :
    mappingState molA molB (i + 1) = mappingStep molA molB (mappingState molA molB i) i
    ∧ (computeAtomMapping molA molB).getD i none
        = (pickBest molA molB (mappingState molA molB i).1
            (mappingState molA molB i).2 i).1
    ∧ ((pickBest molA molB (mappingState molA molB i).1
          (mappingState molA molB i).2 i).1 = none ↔
        ∀ j, j < molB.atoms.length →
          (mappingState molA molB i).2.getD j false = true
          ∨ molA.elementIndexes.getD i 0 ≠ molB.elementIndexes.getD j 0)
    ∧ ∀ j, (pickBest molA molB (mappingState molA molB i).1
          (mappingState molA molB i).2 i).1 = some j →
        j < molB.atoms.length
        ∧ (mappingState molA molB i).2.getD j false = false
        ∧ molA.elementIndexes.getD i 0 = molB.elementIndexes.getD j 0
        ∧ (∀ k, k < molB.atoms.length →
            (mappingState molA molB i).2.getD k false = false →
            molA.elementIndexes.getD i 0 = molB.elementIndexes.getD k 0 →
            mapScore molA molB (mappingState molA molB i).1 i k
              ≤ mapScore molA molB (mappingState molA molB i).1 i j)
        ∧ (∀ k, k < j →
            (mappingState molA molB i).2.getD k false = false →
            molA.elementIndexes.getD i 0 = molB.elementIndexes.getD k 0 →
            mapScore molA molB (mappingState molA molB i).1 i k
              < mapScore molA molB (mappingState molA molB i).1 i j)
        ∧ (mappingState molA molB (i + 1)).2.getD j false = true := by
  have hspec := pickFold_spec molA molB (mappingState molA molB i).1
    (mappingState molA molB i).2 i molB.atoms.length
  refine ⟨mappingState_succ molA molB i, ?_, ?_, ?_⟩
  · -- the final entry at i is the step-i choice
    have hstable : (computeAtomMapping molA molB).getD i none
        = (mappingState molA molB (i + 1)).1.getD i none := by
      unfold computeAtomMapping
      by_cases hm : i + 1 = molA.atoms.length
      · rw [hm]
      · exact mappingState_entry_stable molA molB i molA.atoms.length hi
    rw [hstable, mappingState_succ]
    unfold mappingStep
    cases hp : (pickBest molA molB (mappingState molA molB i).1
        (mappingState molA molB i).2 i).1 with
    | none => exact mappingState_getD_of_le molA molB i i (le_refl i)
    | some j =>
      have hlen : i < (mappingState molA molB i).1.length := by
        rw [(mappingState_lengths molA molB i).1]
        exact hi
      exact getD_set_self _ _ _ _ hlen
  · -- unmatched exactly when no unused equal-tag candidate exists
    constructor
    · intro hn
      exact (hspec.1 hn).2
    · intro hall
      cases hp : (pickBest molA molB (mappingState molA molB i).1
          (mappingState molA molB i).2 i).1 with
      | none => rfl
      | some j =>
        obtain ⟨hj, hju, hjt, _⟩ := hspec.2 j hp
        rcases hall j hj with h | h
        · rw [hju] at h
          exact absurd h (by simp)
        · exact absurd hjt h
  · -- a chosen candidate is maximal, minimal-index among maxima, marked used
    intro j hp
    obtain ⟨hj, hju, hjt, _, hmax, hstrict⟩ := hspec.2 j hp
    refine ⟨hj, hju, hjt, hmax, hstrict, ?_⟩
    rw [mappingState_succ]
    unfold mappingStep
    rw [hp]
    have hlen : j < (mappingState molA molB i).2.length := by
      rw [(mappingState_lengths molA molB i).2]
      exact hj
    exact getD_set_self _ _ _ _ hlen

/-- C2 witness: for the two-atom C–H molecule matched against itself, atom 1
is in range and the final mapping entry at index 1 equals the greedy
step-1 choice. -/
theorem computeAtomMapping_greedy_witness :
    1 < molCH.atoms.length
    ∧ (computeAtomMapping molCH molCH).getD 1 none
        = (pickBest molCH molCH (mappingState molCH molCH 1).1
            (mappingState molCH molCH 1).2 1).1 :=
  ⟨by decide, (computeAtomMapping_greedy molCH molCH 1 (by decide)).2.1⟩

theorem set_noop {α : Type} (l : List α) (n : ℕ) (a : α) (h : l.length ≤ n) :
    l.set n a = l := by
  induction l generalizing n with
  | nil => rfl
  | cons hd tl ih =>
    cases n with
    | zero => simp at h
    | succ n2 =>
      simp only [List.set]
      rw [ih n2 (by simpa using h)]

/-- Invariant carried by the resolver state: every defined mapping entry
points at an index marked used, and defined entries are pairwise distinct. -/
theorem mappingState_invariant (molA molB : Molecule) (m : ℕ) :
    (∀ i j, (mappingState molA molB m).1.getD i none = some j →
      (mappingState molA molB m).2.getD j false = true)
    ∧ ∀ i k j jk, i ≠ k →
        (mappingState molA molB m).1.getD i none = some j →
        (mappingState molA molB m).1.getD k none = some jk →
        j ≠ jk := by
  induction m with
  | zero =>
    constructor
    · intro i j h
      rw [show (mappingState molA molB 0).1
          = List.replicate molA.atoms.length (none : Option ℕ) from rfl,
        getD_replicate_none] at h
      exact absurd h (by simp)
    · intro i k j jk _ h
      rw [show (mappingState molA molB 0).1
          = List.replicate molA.atoms.length (none : Option ℕ) from rfl,
        getD_replicate_none] at h
      exact absurd h (by simp)
  | succ m2 ih =>
    rw [mappingState_succ]
    unfold mappingStep
    cases hp : (pickBest molA molB (mappingState molA molB m2).1
        (mappingState molA molB m2).2 m2).1 with
    | none => exact ih
    | some jnew =>
      have hspec := pickFold_spec molA molB (mappingState molA molB m2).1
        (mappingState molA molB m2).2 m2 molB.atoms.length
      obtain ⟨hjlt, hjunused, _⟩ := hspec.2 jnew hp
      have hjlen : jnew < (mappingState molA molB m2).2.length := by
        rw [(mappingState_lengths molA molB m2).2]
        exact hjlt
      -- a defined old entry never points at the newly chosen index
      have hfresh : ∀ i j, (mappingState molA molB m2).1.getD i none = some j →
          j ≠ jnew := by
        intro i j h hej
        have hh := ih.1 i j h
        rw [hej, hjunused] at hh
        exact absurd hh (by simp)
      have hold : ∀ i j, (mappingState molA molB m2).1.getD i none = some j →
          ((mappingState molA molB m2).2.set jnew true).getD j false = true := by
        intro i j h
        have hused := ih.1 i j h
        by_cases hjj : j = jnew
        · rw [hjj]
          exact getD_set_self _ _ _ _ hjlen
        · rw [getD_set_ne _ _ _ _ _ (fun hh => hjj hh.symm)]
          exact hused
      -- how a stepped entry reads back
      have hentry : ∀ i j,
          ((mappingState molA molB m2).1.set m2 (some jnew)).getD i none = some j →
          (mappingState molA molB m2).1.getD i none = some j ∨ (i = m2 ∧ j = jnew) := by
        intro i j h
        by_cases hi : i = m2
        · rw [hi] at h
          by_cases hlen : m2 < (mappingState molA molB m2).1.length
          · rw [getD_set_self _ _ _ _ hlen] at h
            exact Or.inr ⟨hi.symm ▸ rfl, by simpa using h.symm⟩
          · rw [set_noop _ _ _ (by omega)] at h
            exact Or.inl (hi ▸ h)
        · rw [getD_set_ne _ _ _ _ _ (fun hh => hi hh.symm)] at h
          exact Or.inl h
      constructor
      · intro i j h
        rcases hentry i j h with hcase | ⟨_, hj⟩
        · exact hold i j hcase
        · rw [hj]
          exact getD_set_self _ _ _ _ hjlen
      · intro i k j jk hik hi hk
        rcases hentry i j hi with hic | ⟨him, hjn⟩
        · rcases hentry k jk hk with hkc | ⟨hkm, hjkn⟩
          · exact ih.2 i k j jk hik hic hkc
          · rw [hjkn]
            exact hfresh i j hic
        · rcases hentry k jk hk with hkc | ⟨hkm, hjkn⟩
          · rw [hjn]
            intro hh
            exact hfresh k jk hkc hh.symm
          · exact absurd (him.trans hkm.symm) hik

/-- C3: the `CorrespondenceMap` returned by the resolver has exactly one
entry per atom of A, and is injective on its defined entries: two distinct
A atoms are never mapped to the same B index (enforced by marking
destination indexes used). -/
theorem computeAtomMapping_injective (molA molB : Molecule) :
    (computeAtomMapping molA molB).length = molA.atoms.length
    ∧ ∀ i k j jk, i ≠ k →
        (computeAtomMapping molA molB).getD i none = some j →
        (computeAtomMapping molA molB).getD k none = some jk →
        j ≠ jk := by
  refine ⟨(mappingState_lengths molA molB molA.atoms.length).1, ?_⟩
  intro i k j jk hik hi hk
  exact (mappingState_invariant molA molB molA.atoms.length).2 i k j jk hik hi hk

/-- C3 witness: for the C–H molecule matched against itself both entries are
defined, and the theorem yields their distinctness. -/
theorem computeAtomMapping_injective_witness :
    (computeAtomMapping molCH molCH).getD 0 none = some 0
    ∧ (computeAtomMapping molCH molCH).getD 1 none = some 1
    ∧ (0 : ℕ) ≠ 1 :=
  ⟨by decide, by decide,
    (computeAtomMapping_injective molCH molCH).2 0 1 0 1 (by decide)
      (by decide) (by decide)⟩

/-! ## Claim C4: the coordinate normalizer -/

theorem foldl_jmin_lift (t : List ℚ) (q : ℚ) :
    (t.map JsNum.num).foldl JsNum.jmin (.num q) = .num (t.foldl min q) := by
  induction t generalizing q with
  | nil => rfl
  | cons h t2 ih =>
    simp only [List.map, List.foldl]
    exact ih (min q h)

theorem foldl_jmax_lift (t : List ℚ) (q : ℚ) :
    (t.map JsNum.num).foldl JsNum.jmax (.num q) = .num (t.foldl max q) := by
  induction t generalizing q with
  | nil => rfl
  | cons h t2 ih =>
    simp only [List.map, List.foldl]
    exact ih (max q h)

theorem jsMinList_lift_cons (q : ℚ) (t : List ℚ) :
    jsMinList (JsNum.num q :: t.map JsNum.num) = .num (t.foldl min q) := by
  simp only [jsMinList]
  exact foldl_jmin_lift t q

theorem jsMaxList_lift_cons (q : ℚ) (t : List ℚ) :
    jsMaxList (JsNum.num q :: t.map JsNum.num) = .num (t.foldl max q) := by
  simp only [jsMaxList]
  exact foldl_jmax_lift t q

theorem map_x_lift (l : List Q3) :
    (liftPts l).map V3.x = (l.map (fun v => v.1)).map JsNum.num := by
  simp [liftPts, List.map_map, numV3, Function.comp_def]

theorem map_y_lift (l : List Q3) :
    (liftPts l).map V3.y = (l.map (fun v => v.2.1)).map JsNum.num := by
  simp [liftPts, List.map_map, numV3, Function.comp_def]

theorem map_z_lift (l : List Q3) :
    (liftPts l).map V3.z = (l.map (fun v => v.2.2)).map JsNum.num := by
  simp [liftPts, List.map_map, numV3, Function.comp_def]

theorem min_scale (a b s : ℚ) (hs : 0 ≤ s) : min (a * s) (b * s) = min a b * s := by
  rcases le_total a b with h | h
  · rw [min_eq_left h, min_eq_left (mul_le_mul_of_nonneg_right h hs)]
  · rw [min_eq_right h, min_eq_right (mul_le_mul_of_nonneg_right h hs)]

theorem max_scale (a b s : ℚ) (hs : 0 ≤ s) : max (a * s) (b * s) = max a b * s := by
  rcases le_total a b with h | h
  · rw [max_eq_right h, max_eq_right (mul_le_mul_of_nonneg_right h hs)]
  · rw [max_eq_left h, max_eq_left (mul_le_mul_of_nonneg_right h hs)]

theorem foldl_min_affine (t : List ℚ) (q c s : ℚ) (hs : 0 ≤ s) :
    (t.map (fun x => (x - c) * s)).foldl min ((q - c) * s) = (t.foldl min q - c) * s := by
  induction t generalizing q with
  | nil => rfl
  | cons h t2 ih =>
    simp only [List.map, List.foldl]
    rw [min_scale _ _ s hs, min_sub_sub_right]
    exact ih (min q h)

theorem foldl_max_affine (t : List ℚ) (q c s : ℚ) (hs : 0 ≤ s) :
    (t.map (fun x => (x - c) * s)).foldl max ((q - c) * s) = (t.foldl max q - c) * s := by
  induction t generalizing q with
  | nil => rfl
  | cons h t2 ih =>
    simp only [List.map, List.foldl]
    rw [max_scale _ _ s hs, max_sub_sub_right]
    exact ih (max q h)

theorem div_num_num (a b : ℚ) (hb : b ≠ 0) :
    JsNum.div (.num a) (.num b) = .num (a / b) := by
  simp [JsNum.div, hb]

theorem bboxMin_lift_cons (p : Q3) (t : List Q3) :
    bboxMin (liftPts (p :: t))
      = numV3 ((t.map (fun v => v.1)).foldl min p.1)
              ((t.map (fun v => v.2.1)).foldl min p.2.1)
              ((t.map (fun v => v.2.2)).foldl min p.2.2) := by
  simp only [bboxMin]
  rw [map_x_lift, map_y_lift, map_z_lift]
  simp only [List.map]
  rw [jsMinList_lift_cons, jsMinList_lift_cons, jsMinList_lift_cons]
  rfl

theorem bboxMax_lift_cons (p : Q3) (t : List Q3) :
    bboxMax (liftPts (p :: t))
      = numV3 ((t.map (fun v => v.1)).foldl max p.1)
              ((t.map (fun v => v.2.1)).foldl max p.2.1)
              ((t.map (fun v => v.2.2)).foldl max p.2.2) := by
  simp only [bboxMax]
  rw [map_x_lift, map_y_lift, map_z_lift]
  simp only [List.map]
  rw [jsMaxList_lift_cons, jsMaxList_lift_cons, jsMaxList_lift_cons]
  rfl

theorem bboxCenter_of_minmax (atoms : List V3) (a b c d e f : ℚ)
    (hmin : bboxMin atoms = numV3 a b c) (hmax : bboxMax atoms = numV3 d e f) :
    bboxCenter atoms = numV3 ((a + d) / 2) ((b + e) / 2) ((c + f) / 2) := by
  simp only [bboxCenter, hmin, hmax]
  dsimp only [numV3]
  rw [show JsNum.add (.num a) (.num d) = .num (a + d) from rfl,
    show JsNum.add (.num b) (.num e) = .num (b + e) from rfl,
    show JsNum.add (.num c) (.num f) = .num (c + f) from rfl,
    div_num_num _ _ (by norm_num), div_num_num _ _ (by norm_num),
    div_num_num _ _ (by norm_num)]

theorem bboxSize_of_minmax (atoms : List V3) (a b c d e f : ℚ)
    (hmin : bboxMin atoms = numV3 a b c) (hmax : bboxMax atoms = numV3 d e f) :
    bboxSize atoms = numV3 (d - a) (e - b) (f - c) := by
  simp only [bboxSize, vSub, hmin, hmax]
  rfl

theorem bboxMaxDim_of_size (atoms : List V3) (a b c : ℚ)
    (hsz : bboxSize atoms = numV3 a b c) :
    bboxMaxDim atoms = .num (max (max a b) c) := by
  simp only [bboxMaxDim, hsz]
  rfl

theorem foldl_min_affine_comp (t : List Q3) (f : Q3 → ℚ) (q c s : ℚ) (hs : 0 ≤ s) :
    (t.map (fun v => (f v - c) * s)).foldl min ((q - c) * s)
      = ((t.map f).foldl min q - c) * s := by
  have h := foldl_min_affine (t.map f) q c s hs
  rw [List.map_map] at h
  simpa [Function.comp_def] using h

theorem foldl_max_affine_comp (t : List Q3) (f : Q3 → ℚ) (q c s : ℚ) (hs : 0 ≤ s) :
    (t.map (fun v => (f v - c) * s)).foldl max ((q - c) * s)
      = ((t.map f).foldl max q - c) * s := by
  have h := foldl_max_affine (t.map f) q c s hs
  rw [List.map_map] at h
  simpa [Function.comp_def] using h

theorem normScale_gt (atoms : List V3) (md : ℚ) (h : bboxMaxDim atoms = .num md)
    (h1 : 1 < md) : normScale atoms = .num (1 / md) := by
  simp only [normScale, h]
  rw [if_pos (by simpa [JsNum.lt] using h1)]
  exact div_num_num 1 md (by linarith)

theorem normScale_le (atoms : List V3) (md : ℚ) (h : bboxMaxDim atoms = .num md)
    (h1 : md ≤ 1) : normScale atoms = .num 1 := by
  simp only [normScale, h]
  rw [if_neg]
  simp [JsNum.lt]
  linarith

theorem normalizeAtoms_lift (l : List Q3) (cx cy cz s : ℚ)
    (hc : bboxCenter (liftPts l) = numV3 cx cy cz)
    (hs : normScale (liftPts l) = .num s) :
    normalizeAtoms (liftPts l)
      = liftPts (l.map (fun v => ((v.1 - cx) * s, (v.2.1 - cy) * s, (v.2.2 - cz) * s))) := by
  simp only [normalizeAtoms, hc, hs]
  simp only [liftPts, List.map_map]
  congr 1

/-- C4: for every nonempty molecule, the normalizer recenters the
bounding-box midpoint exactly at the origin and caps the largest
bounding-box dimension at 1; a single scale factor is used on all three
axes (conjunct 4 restates the definition as one shared center and scale),
and that factor is exactly 1 whenever the input box already fits in 1 unit
(the normalizer never upscales). -/
theorem normalizeAtoms_spec (l : List Q3) (hne : l ≠ []) :
    bboxCenter (normalizeAtoms (liftPts l)) = numV3 0 0 0
    ∧ (∃ d : ℚ, bboxMaxDim (normalizeAtoms (liftPts l)) = .num d ∧ d ≤ 1)
    ∧ (∀ m : ℚ, bboxMaxDim (liftPts l) = .num m → m ≤ 1 →
        normScale (liftPts l) = .num 1)
    ∧ normalizeAtoms (liftPts l) = (liftPts l).map (fun a =>
        ⟨.mul (.sub a.x (bboxCenter (liftPts l)).x) (normScale (liftPts l)),
         .mul (.sub a.y (bboxCenter (liftPts l)).y) (normScale (liftPts l)),
         .mul (.sub a.z (bboxCenter (liftPts l)).z) (normScale (liftPts l))⟩) := by
  obtain ⟨p, t, rfl⟩ : ∃ p t, l = p :: t := by
    cases l with
    | nil => exact absurd rfl hne
    | cons p t => exact ⟨p, t, rfl⟩
  have hbmin := bboxMin_lift_cons p t
  have hbmax := bboxMax_lift_cons p t
  have hc := bboxCenter_of_minmax _ _ _ _ _ _ _ hbmin hbmax
  have hsz := bboxSize_of_minmax _ _ _ _ _ _ _ hbmin hbmax
  have hmd := bboxMaxDim_of_size _ _ _ _ hsz
  obtain ⟨s, hs, hspos, hmds⟩ : ∃ s : ℚ, normScale (liftPts (p :: t)) = .num s
      ∧ 0 ≤ s
      ∧ max (max ((t.map (fun v => v.1)).foldl max p.1
              - (t.map (fun v => v.1)).foldl min p.1)
            ((t.map (fun v => v.2.1)).foldl max p.2.1
              - (t.map (fun v => v.2.1)).foldl min p.2.1))
          ((t.map (fun v => v.2.2)).foldl max p.2.2
              - (t.map (fun v => v.2.2)).foldl min p.2.2) * s ≤ 1 := by
    by_cases h1 : 1 < max (max ((t.map (fun v => v.1)).foldl max p.1
          - (t.map (fun v => v.1)).foldl min p.1)
        ((t.map (fun v => v.2.1)).foldl max p.2.1
          - (t.map (fun v => v.2.1)).foldl min p.2.1))
      ((t.map (fun v => v.2.2)).foldl max p.2.2
          - (t.map (fun v => v.2.2)).foldl min p.2.2)
    · refine ⟨1 / _, normScale_gt _ _ hmd h1, by positivity, ?_⟩
      rw [mul_one_div, div_self (by linarith)]
    · exact ⟨1, normScale_le _ _ hmd (by linarith), by norm_num,
        by simpa using le_of_not_lt h1⟩
  have hlift := normalizeAtoms_lift (p :: t) _ _ _ s hc hs
  have hmapped : normalizeAtoms (liftPts (p :: t))
      = liftPts (((p.1 - ((t.map (fun v => v.1)).foldl min p.1
              + (t.map (fun v => v.1)).foldl max p.1) / 2) * s,
          (p.2.1 - ((t.map (fun v => v.2.1)).foldl min p.2.1
              + (t.map (fun v => v.2.1)).foldl max p.2.1) / 2) * s,
          (p.2.2 - ((t.map (fun v => v.2.2)).foldl min p.2.2
              + (t.map (fun v => v.2.2)).foldl max p.2.2) / 2) * s)
        :: t.map (fun v => ((v.1 - ((t.map (fun v => v.1)).foldl min p.1
              + (t.map (fun v => v.1)).foldl max p.1) / 2) * s,
          (v.2.1 - ((t.map (fun v => v.2.1)).foldl min p.2.1
              + (t.map (fun v => v.2.1)).foldl max p.2.1) / 2) * s,
          (v.2.2 - ((t.map (fun v => v.2.2)).foldl min p.2.2
              + (t.map (fun v => v.2.2)).foldl max p.2.2) / 2) * s))) := by
    rw [hlift]
    rfl
  have hmin2 := bboxMin_lift_cons
    ((p.1 - ((t.map (fun v => v.1)).foldl min p.1
        + (t.map (fun v => v.1)).foldl max p.1) / 2) * s,
      (p.2.1 - ((t.map (fun v => v.2.1)).foldl min p.2.1
        + (t.map (fun v => v.2.1)).foldl max p.2.1) / 2) * s,
      (p.2.2 - ((t.map (fun v => v.2.2)).foldl min p.2.2
        + (t.map (fun v => v.2.2)).foldl max p.2.2) / 2) * s)
    (t.map (fun v => ((v.1 - ((t.map (fun v => v.1)).foldl min p.1
        + (t.map (fun v => v.1)).foldl max p.1) / 2) * s,
      (v.2.1 - ((t.map (fun v => v.2.1)).foldl min p.2.1
        + (t.map (fun v => v.2.1)).foldl max p.2.1) / 2) * s,
      (v.2.2 - ((t.map (fun v => v.2.2)).foldl min p.2.2
        + (t.map (fun v => v.2.2)).foldl max p.2.2) / 2) * s)))
  have hmax2 := bboxMax_lift_cons
    ((p.1 - ((t.map (fun v => v.1)).foldl min p.1
        + (t.map (fun v => v.1)).foldl max p.1) / 2) * s,
      (p.2.1 - ((t.map (fun v => v.2.1)).foldl min p.2.1
        + (t.map (fun v => v.2.1)).foldl max p.2.1) / 2) * s,
      (p.2.2 - ((t.map (fun v => v.2.2)).foldl min p.2.2
        + (t.map (fun v => v.2.2)).foldl max p.2.2) / 2) * s)
    (t.map (fun v => ((v.1 - ((t.map (fun v => v.1)).foldl min p.1
        + (t.map (fun v => v.1)).foldl max p.1) / 2) * s,
      (v.2.1 - ((t.map (fun v => v.2.1)).foldl min p.2.1
        + (t.map (fun v => v.2.1)).foldl max p.2.1) / 2) * s,
      (v.2.2 - ((t.map (fun v => v.2.2)).foldl min p.2.2
        + (t.map (fun v => v.2.2)).foldl max p.2.2) / 2) * s)))
  simp only [List.map_map, Function.comp_def] at hmin2 hmax2
  rw [foldl_min_affine_comp t (fun v => v.1) p.1 _ s hspos,
    foldl_min_affine_comp t (fun v => v.2.1) p.2.1 _ s hspos,
    foldl_min_affine_comp t (fun v => v.2.2) p.2.2 _ s hspos] at hmin2
  rw [foldl_max_affine_comp t (fun v => v.1) p.1 _ s hspos,
    foldl_max_affine_comp t (fun v => v.2.1) p.2.1 _ s hspos,
    foldl_max_affine_comp t (fun v => v.2.2) p.2.2 _ s hspos] at hmax2
  set mnx := (t.map (fun v => v.1)).foldl min p.1 with hmnx
  set mny := (t.map (fun v => v.2.1)).foldl min p.2.1 with hmny
  set mnz := (t.map (fun v => v.2.2)).foldl min p.2.2 with hmnz
  set mxx := (t.map (fun v => v.1)).foldl max p.1 with hmxx
  set mxy := (t.map (fun v => v.2.1)).foldl max p.2.1 with hmxy
  set mxz := (t.map (fun v => v.2.2)).foldl max p.2.2 with hmxz
  refine ⟨?_, ?_, ?_, ?_⟩
  · rw [hmapped]
    have h := bboxCenter_of_minmax _ _ _ _ _ _ _ hmin2 hmax2
    rw [h]
    rw [show ((mnx - (mnx + mxx) / 2) * s + (mxx - (mnx + mxx) / 2) * s) / 2 = 0 by ring,
      show ((mny - (mny + mxy) / 2) * s + (mxy - (mny + mxy) / 2) * s) / 2 = 0 by ring,
      show ((mnz - (mnz + mxz) / 2) * s + (mxz - (mnz + mxz) / 2) * s) / 2 = 0 by ring]
  · refine ⟨max (max (mxx - mnx) (mxy - mny)) (mxz - mnz) * s, ?_, hmds⟩
    rw [hmapped]
    have hsz2 := bboxSize_of_minmax _ _ _ _ _ _ _ hmin2 hmax2
    have hmd2 := bboxMaxDim_of_size _ _ _ _ hsz2
    rw [hmd2]
    rw [show (mxx - (mnx + mxx) / 2) * s - (mnx - (mnx + mxx) / 2) * s = (mxx - mnx) * s
        by ring,
      show (mxy - (mny + mxy) / 2) * s - (mny - (mny + mxy) / 2) * s = (mxy - mny) * s
        by ring,
      show (mxz - (mnz + mxz) / 2) * s - (mnz - (mnz + mxz) / 2) * s = (mxz - mnz) * s
        by ring,
      max_scale _ _ s hspos, max_scale _ _ s hspos]
  · intro m hm hm1
    rw [hmd] at hm
    have hmmd : m = max (max (mxx - mnx) (mxy - mny)) (mxz - mnz) := by
      have h2 := hm.symm
      simpa using h2
    exact normScale_le _ _ hmd (hmmd ▸ hm1)
  · rfl

/-- C4 witness: a two-point molecule spanning 2 units in x is recentered at
the origin with its largest dimension scaled down to exactly 1. -/
theorem normalizeAtoms_spec_witness :
    exPts ≠ []
    ∧ bboxCenter (normalizeAtoms (liftPts exPts)) = numV3 0 0 0 :=
  ⟨by decide, (normalizeAtoms_spec exPts (by decide)).1⟩

/-! ## Claims C6 and C9: the parser and the load loop -/

/-- C6 (amended): the load loop does not skip a failing record.  There is no
`try`/`catch` in `loadMoleculesOnce`: a record whose parse fails makes the
whole loop reject with that error, and the records after it are never
processed — the sequence is not continued with the remaining elements. -/
theorem loadMolecules_error_aborts (rs : ℕ → ℚ) (prev : Option Molecule)
    (bad : String) (rest : List String) (e : String)
    (h : parseSDF bad = .error e) :
    loadMoleculesFrom rs prev (bad :: rest) = .error e := by
  unfold loadMoleculesFrom getMoleculePoints
  rw [h]

set_option maxRecDepth 100000 in
unseal Rat.add Rat.mul Rat.inv Rat.sub in
/-- C6 counterexample: a three-record sequence whose middle record parses to
zero atoms.  The claim says the other two elements still build; in fact the
loop aborts with the `ParseError` and returns no sequence at all. -/
theorem loadMolecules_abort_counterexample :
    loadMoleculesOnce rsHalf [sdfGood, sdfZeroAtoms, sdfGood]
      = .error "Parsed zero atoms" := by
  decide

set_option maxRecDepth 100000 in
unseal Rat.add Rat.mul Rat.inv Rat.sub in
/-- C6 amended-claim witness: the zero-atom record at the head of a
two-record list aborts the loop with its parse error. -/
theorem loadMolecules_error_aborts_witness :
    parseSDF sdfZeroAtoms = .error "Parsed zero atoms"
    ∧ loadMoleculesFrom rsHalf none (sdfZeroAtoms :: [sdfGood])
        = .error "Parsed zero atoms" :=
  ⟨by decide,
    loadMolecules_error_aborts rsHalf none sdfZeroAtoms [sdfGood] _ (by decide)⟩

/-- C9 (amended): every molecule produced by the parser has parallel
`atoms` and `elementIndexes` lists (both are maps over the same filtered
raw-atom list).  The bond part of the claimed invariant is not enforced:
bond endpoints are taken verbatim from the record (1-based minus one) with
no range or distinctness validation — see the counterexample. -/
theorem parseSDF_parallel_lengths (sdf : String) (atoms : List V3)
    (elems : List ℕ) (bonds : List Bond)
    (h : parseSDF sdf = .ok (atoms, elems, bonds)) :
    atoms.length = elems.length := by
  simp only [parseSDF] at h
  split at h
  · exact absurd h (by simp)
  · split at h
    · exact absurd h (by simp)
    · simp only [Except.ok.injEq, Prod.mk.injEq] at h
      obtain ⟨ha, he, _⟩ := h
      rw [← ha, ← he]
      simp

set_option maxRecDepth 100000 in
unseal Rat.add Rat.mul Rat.inv Rat.sub in
/-- C9 witness: the well-formed single-atom record parses with one atom and
one element tag. -/
theorem parseSDF_parallel_lengths_witness :
    parseSDF sdfGood = .ok ([numV3 0 0 0], [1], [])
    ∧ ([numV3 0 0 0] : List V3).length = ([1] : List ℕ).length :=
  ⟨by decide, parseSDF_parallel_lengths sdfGood [numV3 0 0 0] [1] [] (by decide)⟩

set_option maxRecDepth 100000 in
unseal Rat.add Rat.mul Rat.inv Rat.sub in
/-- C9 counterexample: a record whose bond line is `  1  1  1` parses
successfully to a molecule whose only bond is the self-loop
`from = to = 0`, violating the claimed `from != to` / valid-indices
invariant: the parser performs no bond validation. -/
theorem parseSDF_selfloop_counterexample :
    parseSDF sdfSelfLoop
      = .ok ([numV3 0 0 0, numV3 1 0 0], [1, 1], [⟨some 0, some 0, some 1⟩])
    ∧ bondsWellFormed [⟨some 0, some 0, some 1⟩] 2 = false :=
  ⟨by decide, by decide⟩

/-! ## Claim C7: the ease function -/

/-- C7: the per-tick ease `t = 2p²` for `p < 1/2`, else `t = -1 + (4-2p)p`,
agrees with `1 - 2(1-p)²` on `[1/2, 1]`, fixes `0`, `1/2` and `1`, and is
monotone non-decreasing on `[0, 1]`. -/
theorem easeT_spec :
    (∀ p : ℚ, 1 / 2 ≤ p → p ≤ 1 → easeT p = 1 - 2 * (1 - p) ^ 2)
    ∧ easeT 0 = 0
    ∧ easeT (1 / 2) = 1 / 2
    ∧ easeT 1 = 1
    ∧ ∀ p q : ℚ, 0 ≤ p → p ≤ q → q ≤ 1 → easeT p ≤ easeT q := by
  refine ⟨?_, by norm_num [easeT], by norm_num [easeT], by norm_num [easeT], ?_⟩
  · intro p h1 h2
    rw [easeT, if_neg (by linarith)]
    ring
  · intro p q hp hpq hq1
    by_cases hp2 : p < 1 / 2
    · by_cases hq2 : q < 1 / 2
      · rw [easeT, if_pos hp2, easeT, if_pos hq2]
        nlinarith
      · rw [easeT, if_pos hp2, easeT, if_neg hq2]
        have hq3 : 1 / 2 ≤ q := by linarith
        have h1 : 2 * p * p ≤ 1 / 2 := by nlinarith
        have h2 : 1 / 2 ≤ -1 + (4 - 2 * q) * q := by nlinarith
        linarith
    · have hq2 : ¬ q < 1 / 2 := by linarith
      rw [easeT, if_neg hp2, easeT, if_neg hq2]
      nlinarith [mul_nonneg (sub_nonneg.mpr hpq)
        (by linarith : (0 : ℚ) ≤ 2 - p - q)]

/-- C7 witness: the second-half closed form at `p = 3/4` and monotonicity
from `1/4` to `3/4`. -/
theorem easeT_spec_witness :
    ((1 : ℚ) / 2 ≤ 3 / 4 ∧ (3 : ℚ) / 4 ≤ 1
      ∧ easeT (3 / 4) = 1 - 2 * (1 - 3 / 4) ^ 2)
    ∧ ((0 : ℚ) ≤ 1 / 4 ∧ (1 : ℚ) / 4 ≤ 3 / 4 ∧ (3 : ℚ) / 4 ≤ 1
      ∧ easeT (1 / 4) ≤ easeT (3 / 4)) :=
  ⟨⟨by norm_num, by norm_num, easeT_spec.1 (3 / 4) (by norm_num) (by norm_num)⟩,
   ⟨by norm_num, by norm_num, by norm_num,
    easeT_spec.2.2.2.2 (1 / 4) (3 / 4) (by norm_num) (by norm_num) (by norm_num)⟩⟩

/-! ## Claim C8: superseding a transition mid-flight -/

theorem mapFrom_get {α β : Type} (f : ℕ → α → β) (k i : ℕ) (l : List α) :
    (mapFrom f k l).get? i = (l.get? i).map (f (k + i)) := by
  induction l generalizing k i with
  | nil => simp [mapFrom]
  | cons a t ih =>
    cases i with
    | zero => simp [mapFrom]
    | succ i2 =>
      simp only [mapFrom, List.get?]
      rw [ih (k + 1) i2, show k + 1 + i2 = k + (i2 + 1) from by omega]

theorem transitionSprite_start (tgt : TransitionTarget) (i : ℕ) (s : SpriteState) :
    (transitionSprite tgt i s).startP = s.pos
    ∧ (transitionSprite tgt i s).fadeStart = s.opacity := by
  simp only [transitionSprite]
  split
  · exact ⟨rfl, rfl⟩
  · split
    · exact ⟨rfl, rfl⟩
    · exact ⟨rfl, rfl⟩

/-- C8: when `transition` supersedes a transition that is still playing,
after the last frame of the old transition every slot's new `start` is its
live interpolated position at the moment of the call (the lerp of the old
start and target at the current eased progress) — never the position from
before the superseded transition — its `fadeStart` is the live opacity, and
`progress` is reset to `0` with the controller playing. -/
theorem beginTransition_captures_live (tgt : TransitionTarget) (st : ViewerState)
    (h : st.animating = true) :
    (beginTransition tgt (tick st)).progress = 0
    ∧ (beginTransition tgt (tick st)).animating = true
    ∧ ∀ i s0, st.sprites.get? i = some s0 →
        ∃ s1, (beginTransition tgt (tick st)).sprites.get? i = some s1
          ∧ s1.startP = lerp3 s0.startP s0.targetP
              (easeT (min (st.progress + 1 / 50) 1))
          ∧ s1.fadeStart = lerpQ s0.fadeStart s0.fadeEnd
              (easeT (min (st.progress + 1 / 50) 1)) := by
  refine ⟨rfl, rfl, ?_⟩
  intro i s0 h0
  have htick : (tick st).sprites.get? i = some
      { s0 with pos := lerp3 s0.startP s0.targetP
                  (easeT (min (st.progress + 1 / 50) 1)),
                opacity := lerpQ s0.fadeStart s0.fadeEnd
                  (easeT (min (st.progress + 1 / 50) 1)) } := by
    simp only [tick, h]
    simp only [if_true]
    rw [List.get?_map, h0]
    rfl
  have hbt : (beginTransition tgt (tick st)).sprites.get? i
      = ((tick st).sprites.get? i).map (transitionSprite tgt i) := by
    simp only [beginTransition]
    rw [mapFrom_get]
    simp
  rw [hbt, htick]
  exact ⟨_, rfl, (transitionSprite_start tgt i _).1, (transitionSprite_start tgt i _).2⟩

/-- C8 witness: a one-sprite controller mid-flight at progress `0.4`
superseded by a new target: the new start is the interpolated position
after the `0.42`-progress frame, not the original start `(0,0,0)`. -/
theorem beginTransition_captures_live_witness :
    stEx.animating = true
    ∧ stEx.sprites.get? 0 = some ⟨(0, 0, 0), 1, (0, 0, 0), (1, 0, 0), 0, 1⟩
    ∧ ((beginTransition tgtEx (tick stEx)).sprites.get? 0).map SpriteState.startP
        = some (lerp3 (0, 0, 0) (1, 0, 0) (easeT (min (2 / 5 + 1 / 50) 1))) := by
  refine ⟨rfl, rfl, ?_⟩
  obtain ⟨s1, h1, h2, _⟩ :=
    (beginTransition_captures_live tgtEx stEx rfl).2.2 0
      ⟨(0, 0, 0), 1, (0, 0, 0), (1, 0, 0), 0, 1⟩ rfl
  rw [h1]
  simp [h2, stEx]

end Chemdemo
